import Mathlib

/-!
# Verification development for `pokerrange` (`main.go`)

A shallow embedding of `main.go` and the statements checked against it.

Conventions of the embedding.

* Go strings are lists of characters (`GoString`); every string the program
  builds is ASCII, so byte slicing `s[0:2]` is `List.take`/`List.drop`.
* `float64` values are rationals.  Every score the program computes is a
  multiple of one half of small magnitude and every counter is a small
  integer, so the floating-point operations on them are exact; the final
  quotient by `1225` is taken in `ℚ`.
* A Go `map` is an association list; reading a missing key yields the zero
  value, writing replaces or adds an entry, and the order in which `range`
  visits the entries is a parameter of the run.
* `poker.NewDeck()` returns a shuffled deck, so the order of every deck the
  program creates is a parameter of the run as well.
* The card library is an import of `main.go`.  Its cards are modelled by what the
  library's `Rank()`, `Suit()`, `String()` and `NewCard` compute on the 52 cards
  of a deck: the numeric rank is the index of the rank character in
  `"23456789TJQKA"`, from 0 for a Two to 12 for an Ace.
-/

namespace PokerRange

/-! ## The imported card library (`github.com/chehsunliu/poker`) -/

/-- Go strings, as sequences of (ASCII) characters. -/
abbrev GoString := List Char

/-- The library's `strRanks`, the rank characters, lowest rank first.  A card's
numeric rank is its index in this string: Two is 0, Nine is 7, Ten is 8, Jack
is 9, Queen is 10, King is 11, Ace is 12. -/
def strRanks : List Char :=
  ['2', '3', '4', '5', '6', '7', '8', '9', 'T', 'J', 'Q', 'K', 'A']

/-- The suit characters of the card library, in the order of their suit codes
1 (spades), 2 (hearts), 4 (diamonds), 8 (clubs). -/
def strSuits : List Char := ['s', 'h', 'd', 'c']

/-- A card of the library (`poker.Card`): a rank index into `strRanks` and a suit
index into `strSuits`.  Two cards are equal iff rank and suit agree. -/
structure Card where
  rankIdx : Fin 13
  suitIdx : Fin 4
  deriving DecidableEq, Repr

/-- `Card.Rank()`, in the library `(int32(c) >> 8) & 0xF`: the index of the rank
in `strRanks`, an `int32` between 0 (Two) and 12 (Ace). -/
def Card.Rank (c : Card) : Int := (c.rankIdx.val : Int)

/-- `Card.Suit()`, in the library `(int32(c) >> 12) & 0xF`: the suit code 1, 2, 4
or 8. -/
def Card.Suit (c : Card) : Int := ((2 ^ c.suitIdx.val : Nat) : Int)

/-- `Card.String()`: the rank character `strRanks[c.Rank()]` followed by the suit
character. -/
def Card.String (c : Card) : GoString :=
  [strRanks.getD c.rankIdx.val '2', strSuits.getD c.suitIdx.val 's']

/-- `poker.NewCard(s)` for a two-character string; `none` stands for an input
outside the library's rank and suit tables. -/
def NewCard (s : GoString) : Option Card :=
  match s with
  | [r, u] =>
    if hr : strRanks.indexOf r < 13 then
      if hu : strSuits.indexOf u < 4 then
        some ⟨⟨strRanks.indexOf r, hr⟩, ⟨strSuits.indexOf u, hu⟩⟩
      else none
    else none
  | _ => none

/-- The 52 cards of the library's full deck (before shuffling). -/
def fullDeck : List Card :=
  (List.finRange 13).flatMap fun r => (List.finRange 4).map fun u => Card.mk r u

/-! ## Tables of `main.go` -/

/-- `posMap`: seat label to exponent; a missing key reads as Go's zero value. -/
def posMap (position : String) : Int :=
  if position = "sb" then 1
  else if position = "d" then 2
  else if position = "co" then 3
  else if position = "hj" then 4
  else if position = "lj" then 5
  else if position = "utg2" then 6
  else if position = "utg1" then 7
  else if position = "utg" then 8
  else 0

/-- `rankPoints`, keyed by the one-character rank string; a missing key reads
as Go's zero value. -/
def rankPoints (r : Char) : ℚ :=
  if r = 'A' then 10
  else if r = 'K' then 8
  else if r = 'Q' then 7
  else if r = 'J' then 6
  else if r = 'T' then 5
  else if r = '9' then 4.5
  else if r = '8' then 4
  else if r = '7' then 3.5
  else if r = '6' then 3
  else if r = '5' then 2.5
  else if r = '4' then 2
  else if r = '3' then 1.5
  else if r = '2' then 1
  else 0

/-- `ranks`: the rank labels of the grid, highest first. -/
def ranks : List Char :=
  ['A', 'K', 'Q', 'J', 'T', '9', '8', '7', '6', '5', '4', '3', '2']

/-! ## Scoring -/

/-- `gapPenalty(r1, r2)`.  The arguments are `int32` ranks between 0 and 12, so
the subtraction cannot wrap. -/
def gapPenalty (r1 r2 : Int) : ℚ :=
  let diff := r1 - r2
  let diff := if diff < 0 then -diff else diff
  let gap := diff - 1
  let gap := if gap < 0 then 0 else gap
  if gap = 0 then 0
  else if gap = 1 then 1
  else if gap = 2 then 2
  else if gap = 3 then 4
  else 5

/-- `math.Round`: the nearest integer, halves rounded away from zero. -/
def mathRound (x : ℚ) : ℚ :=
  if x < 0 then -((⌊-x + 1 / 2⌋ : ℤ) : ℚ) else ((⌊x + 1 / 2⌋ : ℤ) : ℚ)

/-- The score before rounding of a non-pair hand (lines 93-102 of `main.go`):
the higher point value, plus 2 when suited, minus the gap penalty, plus 1 for
the connector bonus. -/
def rawScore (card1 card2 : Card) : ℚ :=
  let card1Points := rankPoints (card1.String.getD 0 '2')
  let card2Points := rankPoints (card2.String.getD 0 '2')
  let score := card1Points
  let score := if card2Points > score then card2Points else score
  let score := if card1.Suit = card2.Suit then score + 2 else score
  let penalty := gapPenalty card1.Rank card2.Rank
  let score := score - penalty
  if penalty < 2 ∧ card1.Rank < 10 ∧ card2.Rank < 10 then score + 1 else score

/-- The value the inner loop body of `computeWinProbality` (lines 76-106) stores
for `card1`, `card2`. -/
def comboScore (card1 card2 : Card) : ℚ :=
  let card1Points := rankPoints (card1.String.getD 0 '2')
  let card2Points := rankPoints (card2.String.getD 0 '2')
  let score := card1Points
  let score := if card2Points > score then card2Points else score
  if card1.Rank = card2.Rank then
    let pairScore : ℚ := 5
    if score * 2 > pairScore then score * 2 else pairScore
  else
    mathRound (rawScore card1 card2)

/-! ## The combo table -/

/-- The map `combos` of `computeWinProbality`, as an association list. -/
abbrev Combos := List (GoString × ℚ)

/-- The test `_, ok := combos[k]`. -/
def Combos.has (m : Combos) (k : GoString) : Bool := m.any fun e => e.1 == k

/-- The read `combos[k]`, zero for a missing key. -/
def Combos.get (m : Combos) (k : GoString) : ℚ :=
  match m.find? fun e => e.1 == k with
  | some e => e.2
  | none => 0

/-- The write `combos[k] = v`. -/
def Combos.set (m : Combos) (k : GoString) (v : ℚ) : Combos :=
  if m.has k then m.map fun e => if e.1 == k then (k, v) else e
  else m ++ [(k, v)]

/-- What a run of `computeWinProbality` does not determine: the deck returned by
each call of `poker.NewDeck()` (call number 0 is `deck1`, call number `i + 1`
the `deck2` of the outer loop's iteration `i`) and the order in which `range`
visits a map. -/
structure Env where
  newDeck : Nat → List Card
  rangeOrder : Combos → Combos

/-- Every deck is a shuffle of the full deck and `range` visits every entry once. -/
def Env.Valid (env : Env) : Prop :=
  (∀ k, (env.newDeck k).Perm fullDeck) ∧ ∀ m, (env.rangeOrder m).Perm m

/-- An environment without randomness: unshuffled decks, insertion order. -/
def Env.plain : Env := ⟨fun _ => fullDeck, fun m => m⟩

/-- One pass of the body of the inner loop (lines 66-106). -/
def innerStep (card1 : Card) (combos : Combos) (card2 : Card) : Combos :=
  if card1.Rank = card2.Rank ∧ card1.Suit = card2.Suit then combos
  else if combos.has (card1.String ++ card2.String) then combos
  else if combos.has (card2.String ++ card1.String) then combos
  else combos.set (card1.String ++ card2.String) (comboScore card1 card2)

/-- One pass of the body of the outer loop (lines 61-107): iteration `i` draws
`card1` and runs the inner loop over a fresh deck. -/
def outerStep (env : Env) (combos : Combos) (ic : Nat × Card) : Combos :=
  (env.newDeck (ic.1 + 1)).foldl (innerStep ic.2) combos

/-- The table built by lines 57-108. -/
def buildCombos (env : Env) : Combos :=
  (env.newDeck 0).enum.foldl (outerStep env) []

/-- The lookup of lines 109-112. -/
def handScore (combos : Combos) (c1 c2 : Card) : ℚ :=
  let h := combos.get (c1.String ++ c2.String)
  if h = 0 then combos.get (c2.String ++ c1.String) else h

/-- The exclusion test of line 117 on a key. -/
def skips (c1 c2 : Card) (combo : GoString) : Bool :=
  combo.take 2 == c1.String || (combo.drop 2).take 2 == c1.String ||
    combo.take 2 == c2.String || (combo.drop 2).take 2 == c2.String

/-- The locals `betterScores`, `equalScores`, `counted` of the scan. -/
structure Tally where
  betterScores : ℚ
  equalScores : ℚ
  counted : Int
  deriving DecidableEq

/-- One pass of the body of the scan (lines 117-126). -/
def scanStep (c1 c2 : Card) (hs : ℚ) (t : Tally) (e : GoString × ℚ) : Tally :=
  if skips c1 c2 e.1 then t
  else
    let b := if e.2 > hs then t.betterScores + 1 else t.betterScores
    let q := if e.2 = hs then t.equalScores + 1 else t.equalScores
    ⟨b, q, t.counted + 1⟩

/-- The scan of lines 113-127 over the built table. -/
def scan (env : Env) (c1 c2 : Card) : Tally :=
  let combos := buildCombos env
  (env.rangeOrder combos).foldl (scanStep c1 c2 (handScore combos c1 c2)) ⟨0, 0, 0⟩

/-- `computeWinProbality(c1, c2, includeTies)`. -/
def computeWinProbality (env : Env) (c1 c2 : Card) (includeTies : Bool) : ℚ :=
  let t := scan env c1 c2
  if !includeTies then 1 - (t.betterScores + t.equalScores) / 1225
  else 1 - t.betterScores / 1225

/-! ## The grid -/

/-- The two cards `printGrid` builds for a cell (lines 189-193): the column rank
in clubs, and the row rank in spades while `unsuited` is set, in clubs after. -/
def cellHand (row col : Char) (unsuited : Bool) : Option (Card × Card) :=
  if unsuited then
    match NewCard [col, 'c'], NewCard [row, 's'] with
    | some a, some b => some (a, b)
    | _, _ => none
  else
    match NewCard [col, 'c'], NewCard [row, 'c'] with
    | some a, some b => some (a, b)
    | _, _ => none

/-- The exponent of a cell (lines 197-200). -/
def cellExp (position : String) : Int :=
  let exp := 1
  if position ≠ "" then posMap position else exp

/-- The number a cell formats, `math.Pow(prob, float64(exp)) * 100` (line 201);
the exponent is a small non-negative integer. -/
def cellShown (prob : ℚ) (exp : Int) : ℚ := prob ^ exp * 100

/-- A cell of the grid: the hand evaluated, its probability, the exponent and the
number handed to `Printf`. -/
structure Cell where
  hand : Card × Card
  prob : ℚ
  exp : Int
  shown : ℚ

/-- The state of the column loop of a row: the flag `unsuited`, the number of
calls of `computeWinProbality` made so far, and the cells printed in this row. -/
structure RowState where
  unsuited : Bool
  calls : Nat
  cells : List (Option Cell)

/-- One pass of the body of the column loop (lines 188-201); call number `k` of
`computeWinProbality` runs in the environment `envs k`. -/
def cellStep (envs : Nat → Env) (position : String) (includeTies : Bool) (row : Char)
    (st : RowState) (col : Char) : RowState :=
  let cell := (cellHand row col st.unsuited).map fun h =>
    let prob := computeWinProbality (envs st.calls) h.1 h.2 includeTies
    let exp := cellExp position
    Cell.mk h prob exp (cellShown prob exp)
  ⟨if col = row then false else st.unsuited, st.calls + 1, st.cells ++ [cell]⟩

/-- One pass of the body of the row loop (lines 180-206). -/
def rowStep (envs : Nat → Env) (position : String) (includeTies : Bool)
    (acc : Nat × List (List (Option Cell))) (row : Char) : Nat × List (List (Option Cell)) :=
  let st := ranks.foldl (cellStep envs position includeTies row) ⟨true, acc.1, []⟩
  (st.calls, acc.2 ++ [st.cells])

/-- `printGrid(position, includeTies)`: the rows of cells, in printing order. -/
def printGrid (envs : Nat → Env) (position : String) (includeTies : Bool) :
    List (List (Option Cell)) :=
  (ranks.foldl (rowStep envs position includeTies) (0, [])).2

/-- An environment with shuffled decks (the deck of call `k` is the full deck
rotated by `k`) in which `range` visits the entries last to first. -/
def Env.rotated : Env := ⟨fun k => fullDeck.rotate k, fun m => m.reverse⟩

/-! ## Reference counts, defined without the table -/

/-- The unordered pairs of distinct positions of a list, each once. -/
def unorderedPairs : List Card → List (Card × Card)
  | [] => []
  | x :: xs => xs.map (fun y => (x, y)) ++ unorderedPairs xs

/-- The cards of the deck other than `c1` and `c2`. -/
def otherCards (c1 c2 : Card) : List Card :=
  fullDeck.filter fun c => c ≠ c1 ∧ c ≠ c2

/-- The number of two-card hands drawn from the other cards that score strictly
more than the hand `c1`, `c2`. -/
def betterCount (c1 c2 : Card) : Nat :=
  (unorderedPairs (otherCards c1 c2)).countP fun p => comboScore p.1 p.2 > comboScore c1 c2

/-- The number of two-card hands drawn from the other cards that score exactly
as much as the hand `c1`, `c2`. -/
def tiedCount (c1 c2 : Card) : Nat :=
  (unorderedPairs (otherCards c1 c2)).countP fun p => comboScore p.1 p.2 = comboScore c1 c2

/-! ## The table as a list of card pairs -/

/-- The entry the inner loop writes for the pair `(card1, card2)`. -/
def entryOf (p : Card × Card) : GoString × ℚ :=
  (p.1.String ++ p.2.String, comboScore p.1 p.2)

/-- The inner loop body on card pairs instead of string keys. -/
def pairStep (card1 : Card) (g : List (Card × Card)) (card2 : Card) : List (Card × Card) :=
  if card1 = card2 then g
  else if (card1, card2) ∈ g then g
  else if (card2, card1) ∈ g then g
  else g ++ [(card1, card2)]

/-- The table of `buildCombos`, on card pairs. -/
def buildPairs (env : Env) : List (Card × Card) :=
  (env.newDeck 0).enum.foldl
    (fun g ic => (env.newDeck (ic.1 + 1)).foldl (pairStep ic.2) g) []

/-- No pair of a card with itself, and no unordered pair twice (in either
orientation). -/
def PairsOk (g : List (Card × Card)) : Prop :=
  (g.map Sym2.mk).Nodup ∧ ∀ p ∈ g, p.1 ≠ p.2

/-- The unordered pair of `x` and `y` has an entry. -/
def Covered (g : List (Card × Card)) (x y : Card) : Prop := (x, y) ∈ g ∨ (y, x) ∈ g

/-! ## The score on rank indices, in integers

Every score is a multiple of one half, so twice the score is an integer; the
functions below recompute the scores in integers from the rank indices, and are
proved equal to the program's scores further down. -/

/-- Twice the point value of the rank with index `r`. -/
def points2 (r : Fin 13) : Int :=
  if r.val = 12 then 20
  else if r.val = 11 then 16
  else if r.val = 10 then 14
  else if r.val = 9 then 12
  else if r.val = 8 then 10
  else r.val + 2

/-- The gap penalty, as an integer. -/
def gapInt (r1 r2 : Int) : Int :=
  let diff := r1 - r2
  let diff := if diff < 0 then -diff else diff
  let gap := diff - 1
  let gap := if gap < 0 then 0 else gap
  if gap = 0 then 0
  else if gap = 1 then 1
  else if gap = 2 then 2
  else if gap = 3 then 4
  else 5

/-- Twice the score before rounding of a non-pair hand. -/
def raw2 (r1 r2 : Fin 13) (suited : Bool) : Int :=
  let score := points2 r1
  let score := if points2 r2 > score then points2 r2 else score
  let score := if suited then score + 4 else score
  let penalty := gapInt r1.val r2.val
  let score := score - 2 * penalty
  if penalty < 2 ∧ r1.val < 10 ∧ r2.val < 10 then score + 2 else score

/-- Rounding of `n / 2` to the nearest integer, halves away from zero. -/
def roundHalf (n : Int) : Int :=
  if n < 0 then -((-n + 1) / 2) else (n + 1) / 2

/-- The stored score, from the rank indices and whether the suits agree. -/
def scoreInt (r1 r2 : Fin 13) (suited : Bool) : Int :=
  let score := points2 r1
  let score := if points2 r2 > score then points2 r2 else score
  if r1 = r2 then (if score > 5 then score else 5)
  else roundHalf (raw2 r1 r2 suited)

/-! ## The grid without the probabilities

The loops of `printGrid` decide which hand each cell evaluates, and in which
call, without looking at any probability; `gridPlan` runs the same loops and
records only the call number and the hand. -/

/-- The column loop body, recording call number and hand. -/
def planStep (row : Char) (st : Bool × Nat × List (Option (Nat × Card × Card))) (col : Char) :
    Bool × Nat × List (Option (Nat × Card × Card)) :=
  (if col = row then false else st.1, st.2.1 + 1,
    st.2.2 ++ [(cellHand row col st.1).map fun h => (st.2.1, h)])

/-- The row loop body, recording call numbers and hands. -/
def planRow (acc : Nat × List (List (Option (Nat × Card × Card)))) (row : Char) :
    Nat × List (List (Option (Nat × Card × Card))) :=
  let st := ranks.foldl (planStep row) (true, acc.1, [])
  (st.2.1, acc.2 ++ [st.2.2])

/-- The call number and hand of every cell, row by row. -/
def gridPlan : List (List (Option (Nat × Card × Card))) :=
  (ranks.foldl planRow (0, [])).2

/-- The cell computed in call `kh.1` for the hand `kh.2`. -/
def mkCell (envs : Nat → Env) (position : String) (includeTies : Bool)
    (kh : Nat × Card × Card) : Cell :=
  let prob := computeWinProbality (envs kh.1) kh.2.1 kh.2.2 includeTies
  let exp := cellExp position
  Cell.mk kh.2 prob exp (cellShown prob exp)

/-- The hand of the cell in row `i` and column `j` of the rank sequence (index 0 is
the Ace): the column rank in clubs; the row rank in spades up to the diagonal and
in clubs after it. -/
def gridHand (i j : Fin 13) : Card × Card :=
  (Card.mk (12 - j) 3, Card.mk (12 - i) (if j ≤ i then 0 else 3))

/-! ## Notions of the glossary -/

/-- The gap of the glossary between two cards: the number of ranks strictly
between their ranks (it is -1 for two cards of one rank). -/
def rankGap (x y : Card) : Int := |x.Rank - y.Rank| - 1

/-- The higher of the two point values of a hand. -/
def highPoints (x y : Card) : ℚ :=
  max (rankPoints (x.String.getD 0 '2')) (rankPoints (y.String.getD 0 '2'))

/-- The test of line 100: the hand receives the connector bonus. -/
def getsConnector (x y : Card) : Prop :=
  gapPenalty x.Rank y.Rank < 2 ∧ x.Rank < 10 ∧ y.Rank < 10

/-! ## Reading the printed grid -/

/-- The cell in row `i` and column `j` of a printed grid. -/
def cellAt (g : List (List (Option Cell))) (i j : Nat) : Option Cell :=
  (g.getD i []).getD j none

/-- The rank combination of a hand: the higher rank index, the lower rank index,
and whether the two cards share a suit. -/
def handClass (h : Card × Card) : Nat × Nat × Bool :=
  (max h.1.rankIdx.val h.2.rankIdx.val, min h.1.rankIdx.val h.2.rankIdx.val,
    decide (h.1.suitIdx = h.2.suitIdx))

/-- The rank combinations of the cells of a printed grid, in printing order. -/
def gridClasses (g : List (List (Option Cell))) : List (Nat × Nat × Bool) :=
  g.flatten.filterMap fun c => c.map fun cell => handClass cell.hand

/-- The rank combinations of the 169 cells, from the closed form of the grid. -/
def planClasses : List (Nat × Nat × Bool) :=
  ((List.finRange 13).product (List.finRange 13)).map fun ij => handClass (gridHand ij.1 ij.2)

/-- The row and column of the cell that evaluates a rank combination. -/
def classCell (k : Nat × Nat × Bool) : Nat × Nat :=
  if k.1 = k.2.1 then (12 - k.1, 12 - k.1)
  else if k.2.2 then (12 - k.1, 12 - k.2.1)
  else (12 - k.2.1, 12 - k.1)

/-! ## The hands that share a card with a hand -/

/-- The two-card hands that contain `a` or `b`: `a` with each other card, `b` with
each other card, and the hand `a`, `b` itself. -/
def touching (a b : Card) : List (Card × Card) :=
  (otherCards a b).map (fun x => (a, x)) ++
    ((otherCards a b).map (fun x => (b, x)) ++ [(a, b)])

/-! ## The score table

The 338 stored scores, shifted by 5 to be natural numbers, in one number: this
lets the counts over the deck be evaluated quickly. -/

/-- The stored scores plus 5, five bits each: the entry for the rank indices `r1`,
`r2` and the flag `suited` stands at bit `5 * ((r1 * 13 + r2) * 2 + suited)`. -/
def scoreTable : Nat :=
  44374574699265299168056001093529699026642370087198252319276558086028394416723603669960663274969561656855440995269752082415975416556843584186973498588195064134686011677114288161195356096232751402928757150638074602308211724200581658793106028284816402536154588796115279657665712040840777870553595165084070802685827858787983018484000061328932174833153008073744113267927440667165156201270766366099807926781380803894667260723156784776820007498099264230735159558162773171803856959079762562494392283072713041009516874

/-- The entry of `scoreTable` for two rank indices and the suited flag. -/
def tableAt (r1 r2 : Nat) (suited : Bool) : Nat :=
  (scoreTable >>> (5 * ((r1 * 13 + r2) * 2 + suited.toNat))) % 32

/-- The stored score plus 5 of a hand, read from the table. -/
def tScore (x y : Card) : Nat :=
  tableAt x.rankIdx.val y.rankIdx.val (decide (x.suitIdx = y.suitIdx))

/-- What the cards of rank `r2` add to the count, over the other 51 cards `x`, of
the hands of a card of rank `r` with `x` whose table score satisfies `pN`: one
suited and three offsuit hands, or three pairs. -/
def rankTerm (pN : Nat → Bool) (r r2 : Nat) : Nat :=
  if r2 = r then 3 * (pN (tableAt r r2 false)).toNat
  else (pN (tableAt r r2 true)).toNat + 3 * (pN (tableAt r r2 false)).toNat

/-- The count, over the other 51 cards `x`, of the hands of a card of rank `r` with
`x` whose table score satisfies `pN`. -/
def rankSum (pN : Nat → Bool) (r : Nat) : Nat :=
  ((List.range 13).map (rankTerm pN r)).sum

/-! ## Tables of counts -/

/-- The number of hands of the deck whose table score exceeds `s`, from the counts
by rank. -/
def aboveAll (s : Nat) : Nat :=
  2 * ((List.range 13).map (rankSum (Nat.blt s))).sum

/-- The values of `aboveAll` for the table scores 0 to 31. -/
def aboveTab : List Nat :=
  [1326, 1326, 1326, 1314, 1230, 1170, 1046, 890, 686, 574, 338, 236, 142, 88, 58, 32, 28, 18,
    18, 12, 12, 6, 6, 6, 6, 0, 0, 0, 0, 0, 0, 0]

/-- Bounds on the number of better hands: a hand of table score `s` has between
`cutT[s + 1]` and `cutT[s]` better hands among the other 50 cards. -/
def cutT : List Nat :=
  [1225, 1225, 1225, 1218, 1149, 1095, 983, 844, 663, 554, 336, 234, 142, 88, 58, 32, 21, 18,
    12, 12, 12, 6, 6, 6, 6, 0, 0, 0, 0, 0, 0, 0, 0]

/-- Bounds on the number of better or tied hands: a hand of table score `s` has
between `cutF[s + 1]` and `cutF[s]` better or tied hands among the other 50
cards. -/
def cutF : List Nat :=
  [1225, 1225, 1225, 1225, 1216, 1141, 1093, 984, 846, 659, 557, 333, 228, 135, 83, 53, 24, 23,
    21, 13, 13, 7, 7, 7, 7, 1, 1, 1, 1, 1, 1, 1, 1]

/-- The check of one class of hands (two rank indices and the suited flag; a
suited pair is no hand): the counts by rank put the number of better hands, and
of better or tied hands, between the bounds of `cutT` and `cutF`. -/
def classOk (r1 r2 : Nat) (suited : Bool) : Bool :=
  let s := tableAt r1 r2 suited
  let up := rankSum (Nat.blt s) r1 + rankSum (Nat.blt s) r2
  let upEq := rankSum (Nat.blt (s - 1)) r1 + rankSum (Nat.blt (s - 1)) r2
  (r1 == r2 && suited) ||
    (Nat.ble 1 s && Nat.ble s 31 &&
      Nat.ble (cutT.getD (s + 1) 0 + up) (aboveTab.getD s 0) &&
      Nat.ble (aboveTab.getD s 0) (cutT.getD s 0 + up) &&
      Nat.ble (cutF.getD (s + 1) 0 + upEq) (aboveTab.getD (s - 1) 0 + 1) &&
      Nat.ble (aboveTab.getD (s - 1) 0 + 1) (cutF.getD s 0 + upEq))

/-! ## The program over another scorer

The rounding of the non-pair score enters `computeWinProbality` only through
the value the inner loop stores; the definitions below are the program with
that value as a parameter. -/

/-- Modelled from the spec: the nearest integer, halves rounded to the even
neighbour (Go's `math.RoundToEven`). -/
def roundEven (x : ℚ) : ℚ :=
  let f : Int := ⌊x⌋
  if x - f < 1 / 2 then f
  else if x - f > 1 / 2 then f + 1
  else if f % 2 = 0 then f else f + 1

/-- Modelled from the spec: the stored score with `math.Round` replaced by
rounding halves to even; everything else as in `comboScore`. -/
def comboScoreEven (card1 card2 : Card) : ℚ :=
  let card1Points := rankPoints (card1.String.getD 0 '2')
  let card2Points := rankPoints (card2.String.getD 0 '2')
  let score := card1Points
  let score := if card2Points > score then card2Points else score
  if card1.Rank = card2.Rank then
    let pairScore : ℚ := 5
    if score * 2 > pairScore then score * 2 else pairScore
  else
    roundEven (rawScore card1 card2)

/-- The body of the inner loop, storing `score card1 card2`. -/
def innerStepWith (score : Card → Card → ℚ) (card1 : Card) (combos : Combos) (card2 : Card) :
    Combos :=
  if card1.Rank = card2.Rank ∧ card1.Suit = card2.Suit then combos
  else if combos.has (card1.String ++ card2.String) then combos
  else if combos.has (card2.String ++ card1.String) then combos
  else combos.set (card1.String ++ card2.String) (score card1 card2)

/-- The body of the outer loop, over the scorer `score`. -/
def outerStepWith (score : Card → Card → ℚ) (env : Env) (combos : Combos) (ic : Nat × Card) :
    Combos :=
  (env.newDeck (ic.1 + 1)).foldl (innerStepWith score ic.2) combos

/-- The table built over the scorer `score`. -/
def buildCombosWith (score : Card → Card → ℚ) (env : Env) : Combos :=
  (env.newDeck 0).enum.foldl (outerStepWith score env) []

/-- The scan over the table built with the scorer `score`. -/
def scanWith (score : Card → Card → ℚ) (env : Env) (c1 c2 : Card) : Tally :=
  let combos := buildCombosWith score env
  (env.rangeOrder combos).foldl (scanStep c1 c2 (handScore combos c1 c2)) ⟨0, 0, 0⟩

/-- The function `computeWinProbality` with the scorer `score` in the place of the
stored score. -/
def computeWinProbalityWith (score : Card → Card → ℚ) (env : Env) (c1 c2 : Card)
    (includeTies : Bool) : ℚ :=
  let t := scanWith score env c1 c2
  if !includeTies then 1 - (t.betterScores + t.equalScores) / 1225
  else 1 - t.betterScores / 1225

/-- The entry the inner loop over `score` writes for the pair `(card1, card2)`. -/
def entryWith (score : Card → Card → ℚ) (p : Card × Card) : GoString × ℚ :=
  (p.1.String ++ p.2.String, score p.1 p.2)

/-- The number of hands of the other cards that score strictly more than the hand
`c1`, `c2` under `score`. -/
def betterCountWith (score : Card → Card → ℚ) (c1 c2 : Card) : Nat :=
  (unorderedPairs (otherCards c1 c2)).countP fun p => score p.1 p.2 > score c1 c2

/-- The number of hands of the other cards that score exactly as much as the hand
`c1`, `c2` under `score`. -/
def tiedCountWith (score : Card → Card → ℚ) (c1 c2 : Card) : Nat :=
  (unorderedPairs (otherCards c1 c2)).countP fun p => score p.1 p.2 = score c1 c2

/-- Rounding of `n / 2` to the nearest integer, halves to even. -/
def roundHalfEven (n : Int) : Int :=
  if n % 2 = 0 then n / 2
  else if (n / 2) % 2 = 0 then n / 2 else n / 2 + 1

/-- The score with halves rounded to even, from the rank indices and whether the
suits agree. -/
def scoreIntEven (r1 r2 : Fin 13) (suited : Bool) : Int :=
  if r1 = r2 then scoreInt r1 r2 suited else roundHalfEven (raw2 r1 r2 suited)

/-! # Lemmas -/

/-! ## Facts about cards -/

theorem rankChar_inj : ∀ i j : Fin 13,
    strRanks.getD i.val '2' = strRanks.getD j.val '2' → i = j := by decide

theorem suitChar_inj : ∀ i j : Fin 4,
    strSuits.getD i.val 's' = strSuits.getD j.val 's' → i = j := by decide

theorem suitCode_inj : ∀ i j : Fin 4, (2 ^ i.val : Nat) = 2 ^ j.val → i = j := by decide

theorem Card.String_inj {a b : Card} (h : a.String = b.String) : a = b := by
  cases a with
  | mk ra sa =>
    cases b with
    | mk rb sb =>
      simp only [Card.String, List.cons.injEq, and_true] at h
      rw [rankChar_inj ra rb h.1, suitChar_inj sa sb h.2]

theorem Card.same_iff (a b : Card) : (a.Rank = b.Rank ∧ a.Suit = b.Suit) ↔ a = b := by
  constructor
  · intro h
    cases a with
    | mk ra sa =>
      cases b with
      | mk rb sb =>
        simp only [Card.Rank, Card.Suit, Nat.cast_inj] at h
        rw [Fin.ext h.1, suitCode_inj sa sb h.2]
  · rintro rfl
    exact ⟨rfl, rfl⟩

theorem key_inj {a b c d : Card} (h : a.String ++ b.String = c.String ++ d.String) :
    a = c ∧ b = d := by
  have h2 := List.append_inj h rfl
  exact ⟨Card.String_inj h2.1, Card.String_inj h2.2⟩

theorem key_take (a b : Card) : (a.String ++ b.String).take 2 = a.String := rfl

theorem key_drop (a b : Card) : ((a.String ++ b.String).drop 2).take 2 = b.String := rfl

theorem mem_fullDeck (c : Card) : c ∈ fullDeck := by
  cases c with
  | mk r u =>
    simp only [fullDeck, List.mem_flatMap, List.mem_map, List.mem_finRange, true_and]
    exact ⟨r, u, rfl⟩

theorem fullDeck_nodup : fullDeck.Nodup := by decide

theorem fullDeck_length : fullDeck.length = 52 := rfl

theorem mem_of_perm_fullDeck {l : List Card} (h : l.Perm fullDeck) (c : Card) : c ∈ l :=
  h.symm.subset (mem_fullDeck c)

theorem has_map_entryOf (g : List (Card × Card)) (x y : Card) :
    Combos.has (g.map entryOf) (x.String ++ y.String) = true ↔ (x, y) ∈ g := by
  unfold Combos.has
  rw [List.any_eq_true]
  constructor
  · rintro ⟨e, he, hk⟩
    obtain ⟨p, hp, rfl⟩ := List.mem_map.1 he
    obtain ⟨h1, h2⟩ := key_inj (beq_iff_eq.1 hk)
    have : p = (x, y) := Prod.ext h1 h2
    exact this ▸ hp
  · intro h
    exact ⟨entryOf (x, y), List.mem_map_of_mem _ h, beq_iff_eq.2 rfl⟩

theorem innerStep_map (card1 card2 : Card) (g : List (Card × Card)) :
    innerStep card1 (g.map entryOf) card2 = (pairStep card1 g card2).map entryOf := by
  unfold innerStep pairStep
  by_cases h : card1 = card2
  · have h2 : card1.Rank = card2.Rank ∧ card1.Suit = card2.Suit := (Card.same_iff _ _).2 h
    rw [if_pos h2, if_pos h]
  · have h2 : ¬ (card1.Rank = card2.Rank ∧ card1.Suit = card2.Suit) :=
      fun hh => h ((Card.same_iff _ _).1 hh)
    rw [if_neg h2, if_neg h]
    by_cases h12 : (card1, card2) ∈ g
    · rw [if_pos ((has_map_entryOf g card1 card2).2 h12), if_pos h12]
    · have e12 : ¬ Combos.has (g.map entryOf) (card1.String ++ card2.String) = true :=
        fun hh => h12 ((has_map_entryOf g card1 card2).1 hh)
      rw [if_neg e12, if_neg h12]
      by_cases h21 : (card2, card1) ∈ g
      · rw [if_pos ((has_map_entryOf g card2 card1).2 h21), if_pos h21]
      · have e21 : ¬ Combos.has (g.map entryOf) (card2.String ++ card1.String) = true :=
          fun hh => h21 ((has_map_entryOf g card2 card1).1 hh)
        rw [if_neg e21, if_neg h21]
        unfold Combos.set
        rw [if_neg e12, List.map_append]
        rfl

theorem inner_fold_map (card1 : Card) (l : List Card) (g : List (Card × Card)) :
    l.foldl (innerStep card1) (g.map entryOf) = (l.foldl (pairStep card1) g).map entryOf := by
  induction l generalizing g with
  | nil => rfl
  | cons c l ih => rw [List.foldl_cons, List.foldl_cons, innerStep_map, ih]

theorem outer_fold_map (env : Env) (l : List (Nat × Card)) (g : List (Card × Card)) :
    l.foldl (outerStep env) (g.map entryOf) =
      (l.foldl (fun g ic => (env.newDeck (ic.1 + 1)).foldl (pairStep ic.2) g) g).map entryOf := by
  induction l generalizing g with
  | nil => rfl
  | cons c l ih =>
    rw [List.foldl_cons, List.foldl_cons]
    unfold outerStep at ih ⊢
    rw [inner_fold_map, ih]

theorem buildCombos_eq (env : Env) : buildCombos env = (buildPairs env).map entryOf :=
  outer_fold_map env _ []

/-! ## The invariant of the loops -/

theorem mk_mem_map_iff (g : List (Card × Card)) (x y : Card) :
    Sym2.mk (x, y) ∈ g.map Sym2.mk ↔ Covered g x y := by
  simp only [List.mem_map, Covered]
  constructor
  · rintro ⟨⟨a, b⟩, hp, he⟩
    rcases Sym2.eq_iff.1 he with ⟨h1, h2⟩ | ⟨h1, h2⟩
    · left; rw [← h1, ← h2]; exact hp
    · right; rw [← h1, ← h2]; exact hp
  · rintro (h | h)
    · exact ⟨(x, y), h, rfl⟩
    · exact ⟨(y, x), h, Sym2.eq_swap⟩

theorem pairStep_sub (x y : Card) (g : List (Card × Card)) : g ⊆ pairStep x g y := by
  unfold pairStep
  split_ifs
  · exact List.Subset.refl _
  · exact List.Subset.refl _
  · exact List.Subset.refl _
  · exact List.subset_append_left _ _

theorem pairStep_ok (x y : Card) (g : List (Card × Card)) (h : PairsOk g) :
    PairsOk (pairStep x g y) := by
  unfold pairStep
  split_ifs with h1 h2 h3
  · exact h
  · exact h
  · exact h
  · refine ⟨?_, ?_⟩
    · rw [List.map_append, List.nodup_append]
      refine ⟨h.1, List.nodup_singleton _, ?_⟩
      intro s hs hs2
      rw [List.map_singleton, List.mem_singleton] at hs2
      subst hs2
      rcases (mk_mem_map_iff g x y).1 hs with hh | hh
      · exact h2 hh
      · exact h3 hh
    · intro p hp
      rcases List.mem_append.1 hp with hp | hp
      · exact h.2 p hp
      · rw [List.mem_singleton] at hp
        subst hp
        exact h1

theorem pairStep_covers (x y : Card) (g : List (Card × Card)) (hxy : x ≠ y) :
    Covered (pairStep x g y) x y := by
  unfold pairStep
  rw [if_neg hxy]
  split_ifs with h2 h3
  · exact Or.inl h2
  · exact Or.inr h3
  · exact Or.inl (List.mem_append_right _ (List.mem_singleton_self _))

theorem inner_fold_inv (x : Card) (l : List Card) (g : List (Card × Card)) (h : PairsOk g) :
    PairsOk (l.foldl (pairStep x) g) ∧ g ⊆ l.foldl (pairStep x) g ∧
      ∀ y ∈ l, x ≠ y → Covered (l.foldl (pairStep x) g) x y := by
  induction l generalizing g with
  | nil => exact ⟨h, List.Subset.refl _, fun y hy => absurd hy (List.not_mem_nil y)⟩
  | cons c l ih =>
    rw [List.foldl_cons]
    obtain ⟨i1, i2, i3⟩ := ih (pairStep x g c) (pairStep_ok x c g h)
    refine ⟨i1, fun p hp => i2 (pairStep_sub x c g hp), ?_⟩
    intro y hy hxy
    rcases List.mem_cons.1 hy with rfl | hy
    · rcases pairStep_covers x y g hxy with hh | hh
      · exact Or.inl (i2 hh)
      · exact Or.inr (i2 hh)
    · exact i3 y hy hxy

theorem outer_fold_inv (env : Env) (hd : ∀ k, (env.newDeck k).Perm fullDeck)
    (l : List (Nat × Card)) (g : List (Card × Card)) (h : PairsOk g) :
    PairsOk (l.foldl (fun g ic => (env.newDeck (ic.1 + 1)).foldl (pairStep ic.2) g) g) ∧
      g ⊆ l.foldl (fun g ic => (env.newDeck (ic.1 + 1)).foldl (pairStep ic.2) g) g ∧
      ∀ ic ∈ l, ∀ y, ic.2 ≠ y →
        Covered (l.foldl (fun g ic => (env.newDeck (ic.1 + 1)).foldl (pairStep ic.2) g) g)
          ic.2 y := by
  induction l generalizing g with
  | nil => exact ⟨h, List.Subset.refl _, fun y hy => absurd hy (List.not_mem_nil y)⟩
  | cons c l ih =>
    rw [List.foldl_cons]
    obtain ⟨j1, j2, j3⟩ := inner_fold_inv c.2 (env.newDeck (c.1 + 1)) g h
    obtain ⟨i1, i2, i3⟩ := ih _ j1
    refine ⟨i1, fun p hp => i2 (j2 hp), ?_⟩
    intro ic hic y hy
    rcases List.mem_cons.1 hic with rfl | hic
    · rcases j3 y (mem_of_perm_fullDeck (hd _) y) hy with hh | hh
      · exact Or.inl (i2 hh)
      · exact Or.inr (i2 hh)
    · exact i3 ic hic y hy

theorem buildPairs_ok (env : Env) (hd : ∀ k, (env.newDeck k).Perm fullDeck) :
    PairsOk (buildPairs env) :=
  (outer_fold_inv env hd _ [] ⟨List.nodup_nil, fun p hp => absurd hp (List.not_mem_nil p)⟩).1

theorem buildPairs_covers (env : Env) (hd : ∀ k, (env.newDeck k).Perm fullDeck)
    (x y : Card) (hxy : x ≠ y) : Covered (buildPairs env) x y := by
  have hx : x ∈ env.newDeck 0 := mem_of_perm_fullDeck (hd 0) x
  obtain ⟨i, hi⟩ := List.mem_iff_get.1 hx
  have hm : (i.val, x) ∈ (env.newDeck 0).enum := by
    rw [List.mk_mem_enum_iff_getElem?]
    rw [← hi]
    simp
  exact (outer_fold_inv env hd _ [] ⟨List.nodup_nil, fun p hp => absurd hp (List.not_mem_nil p)⟩).2.2
    (i.val, x) hm y hxy

/-! ## Unordered pairs -/

theorem mem_unorderedPairs {l : List Card} {p : Card × Card} (h : p ∈ unorderedPairs l) :
    p.1 ∈ l ∧ p.2 ∈ l := by
  induction l with
  | nil => exact absurd h (List.not_mem_nil p)
  | cons x xs ih =>
    rcases List.mem_append.1 h with h | h
    · obtain ⟨y, hy, rfl⟩ := List.mem_map.1 h
      exact ⟨List.mem_cons_self _ _, List.mem_cons_of_mem _ hy⟩
    · exact ⟨List.mem_cons_of_mem _ (ih h).1, List.mem_cons_of_mem _ (ih h).2⟩

theorem unorderedPairs_ok {l : List Card} (hl : l.Nodup) : PairsOk (unorderedPairs l) := by
  induction l with
  | nil => exact ⟨List.nodup_nil, fun p hp => absurd hp (List.not_mem_nil p)⟩
  | cons x xs ih =>
    obtain ⟨hx, hxs⟩ := List.nodup_cons.1 hl
    obtain ⟨i1, i2⟩ := ih hxs
    refine ⟨?_, ?_⟩
    · show ((xs.map (fun y => (x, y)) ++ unorderedPairs xs).map Sym2.mk).Nodup
      rw [List.map_append, List.nodup_append]
      refine ⟨?_, i1, ?_⟩
      · rw [List.map_map]
        refine List.Nodup.map_on ?_ hxs
        intro a _ b _ hab
        rcases Sym2.eq_iff.1 hab with ⟨_, h2⟩ | ⟨h1, h2⟩
        · exact h2
        · exact h2.trans h1
      · intro s hs1 hs2
        rw [List.map_map] at hs1
        obtain ⟨y, _, rfl⟩ := List.mem_map.1 hs1
        obtain ⟨q, hq, he⟩ := List.mem_map.1 hs2
        have hq2 := mem_unorderedPairs hq
        rcases q with ⟨a, b⟩
        rcases Sym2.eq_iff.1 he with ⟨h1, _⟩ | ⟨_, h2⟩
        · exact hx (h1 ▸ hq2.1)
        · exact hx (h2 ▸ hq2.2)
    · intro p hp
      rcases List.mem_append.1 hp with hp | hp
      · obtain ⟨y, hy, rfl⟩ := List.mem_map.1 hp
        intro h
        have h2 : x = y := h
        exact hx (h2 ▸ hy)
      · exact i2 p hp

theorem unorderedPairs_covers {l : List Card} {x y : Card} (hx : x ∈ l) (hy : y ∈ l)
    (hxy : x ≠ y) : Covered (unorderedPairs l) x y := by
  induction l with
  | nil => exact absurd hx (List.not_mem_nil x)
  | cons a xs ih =>
    rcases List.mem_cons.1 hx with hxa | hxs
    · rcases List.mem_cons.1 hy with hya | hys
      · exact absurd (hxa.trans hya.symm) hxy
      · exact Or.inl (List.mem_append_left _ (hxa ▸ List.mem_map_of_mem _ hys))
    · rcases List.mem_cons.1 hy with hya | hys
      · exact Or.inr (List.mem_append_left _ (hya ▸ List.mem_map_of_mem _ hxs))
      · rcases ih hxs hys with h | h
        · exact Or.inl (List.mem_append_right _ h)
        · exact Or.inr (List.mem_append_right _ h)

theorem unorderedPairs_length (l : List Card) :
    (unorderedPairs l).length = l.length.choose 2 := by
  induction l with
  | nil => rfl
  | cons x xs ih =>
    show (xs.map (fun y => (x, y)) ++ unorderedPairs xs).length = (xs.length + 1).choose 2
    rw [List.length_append, List.length_map, ih, Nat.choose_succ_succ, Nat.choose_one_right]

/-- Two duplicate-free lists of pairs that cover the same unordered pairs are,
as lists of unordered pairs, permutations of each other. -/
theorem perm_of_same_cover {g u : List (Card × Card)} (hg : PairsOk g) (hu : PairsOk u)
    (h : ∀ x y, x ≠ y → (Covered g x y ↔ Covered u x y)) :
    (g.map Sym2.mk).Perm (u.map Sym2.mk) := by
  rw [List.perm_ext_iff_of_nodup hg.1 hu.1]
  intro s
  induction s using Sym2.ind with
  | _ x y =>
    rw [mk_mem_map_iff, mk_mem_map_iff]
    by_cases hxy : x = y
    · subst hxy
      constructor
      · rintro (hh | hh) <;> exact absurd rfl (hg.2 _ hh)
      · rintro (hh | hh) <;> exact absurd rfl (hu.2 _ hh)
    · exact h x y hxy

theorem otherCards_nodup (c1 c2 : Card) : (otherCards c1 c2).Nodup :=
  fullDeck_nodup.filter _

theorem mem_otherCards (c1 c2 c : Card) : c ∈ otherCards c1 c2 ↔ c ≠ c1 ∧ c ≠ c2 := by
  simp [otherCards, mem_fullDeck]

theorem otherCards_length (c1 c2 : Card) (h : c1 ≠ c2) : (otherCards c1 c2).length = 50 := by
  have e : otherCards c1 c2 = (fullDeck.erase c1).erase c2 := by
    rw [fullDeck_nodup.erase_eq_filter, (fullDeck_nodup.filter _).erase_eq_filter,
      List.filter_filter]
    unfold otherCards
    congr 1
    funext c
    by_cases h1 : c = c1 <;> by_cases h2 : c = c2 <;> simp [h1, h2]
  rw [e, List.length_erase_of_mem, List.length_erase_of_mem (mem_fullDeck c1), fullDeck_length]
  exact (List.mem_erase_of_ne (Ne.symm h)).2 (mem_fullDeck c2)

/-! ## The score is symmetric -/

theorem gapPenalty_comm (r1 r2 : Int) : gapPenalty r1 r2 = gapPenalty r2 r1 := by
  have e : (if r1 - r2 < 0 then -(r1 - r2) else r1 - r2) =
      (if r2 - r1 < 0 then -(r2 - r1) else r2 - r1) := by
    split_ifs <;> omega
  unfold gapPenalty
  simp only [e]

theorem base_comm (p q : ℚ) : (if q > p then q else p) = (if p > q then p else q) := by
  rcases lt_trichotomy p q with h | h | h
  · rw [if_pos h, if_neg (not_lt.2 h.le)]
  · subst h
    simp
  · rw [if_neg (not_lt.2 h.le), if_pos h]

theorem rawScore_comm (a b : Card) : rawScore a b = rawScore b a := by
  unfold rawScore
  simp only [base_comm (rankPoints (a.String.getD 0 '2')), gapPenalty_comm a.Rank b.Rank,
    eq_comm (a := a.Suit), and_comm (a := a.Rank < 10)]

theorem comboScore_comm (a b : Card) : comboScore a b = comboScore b a := by
  unfold comboScore
  simp only [base_comm (rankPoints (a.String.getD 0 '2')), rawScore_comm a b,
    eq_comm (a := a.Rank)]

theorem countP_score_eq {g u : List (Card × Card)}
    (hperm : (g.map Sym2.mk).Perm (u.map Sym2.mk)) (P : ℚ → Bool) :
    g.countP (fun p => P (comboScore p.1 p.2)) = u.countP (fun p => P (comboScore p.1 p.2)) := by
  have e : ∀ l : List (Card × Card),
      l.countP (fun p => P (comboScore p.1 p.2)) =
        (l.map Sym2.mk).countP (fun s => P (Sym2.lift ⟨comboScore, comboScore_comm⟩ s)) := by
    intro l
    rw [List.countP_map]
    rfl
  rw [e g, e u]
  exact hperm.countP_eq _

/-! ## Reading the table -/

theorem get_map_entryOf (g : List (Card × Card)) (x y : Card) :
    Combos.get (g.map entryOf) (x.String ++ y.String) =
      if (x, y) ∈ g then comboScore x y else 0 := by
  induction g with
  | nil => rfl
  | cons p g ih =>
    unfold Combos.get at ih ⊢
    rw [List.map_cons, List.find?_cons]
    by_cases hp : p = (x, y)
    · subst hp
      simp [entryOf]
    · have hk : ((entryOf p).1 == x.String ++ y.String) = false := by
        rw [beq_eq_false_iff_ne]
        intro hk
        exact hp (Prod.ext (key_inj hk).1 (key_inj hk).2)
      rw [hk, ih]
      simp [List.mem_cons, Ne.symm hp]

theorem handScore_eq (g : List (Card × Card)) (hg : PairsOk g) (x y : Card)
    (hc : Covered g x y) : handScore (g.map entryOf) x y = comboScore x y := by
  unfold handScore
  simp only [get_map_entryOf]
  rcases hc with h | h
  · rw [if_pos h]
    by_cases h0 : comboScore x y = 0
    · rw [if_pos h0, h0]
      split_ifs with h2
      · rw [comboScore_comm, h0]
      · rfl
    · rw [if_neg h0]
  · have hn : (x, y) ∉ g := by
      intro hxy
      have hnd := hg.1
      have h1 : Sym2.mk (x, y) = Sym2.mk (y, x) := Sym2.eq_swap
      have hne : (x, y) ≠ (y, x) := by
        intro he
        exact hg.2 _ hxy (Prod.mk.inj he).1
      exact hne (List.inj_on_of_nodup_map hnd hxy h h1)
    rw [if_neg hn, if_pos rfl, if_pos h, comboScore_comm]

/-! ## The scan -/

theorem skips_key (c1 c2 x y : Card) :
    skips c1 c2 (x.String ++ y.String) = true ↔ (x = c1 ∨ y = c1 ∨ x = c2 ∨ y = c2) := by
  unfold skips
  rw [key_take, key_drop]
  simp only [Bool.or_eq_true, beq_iff_eq, or_assoc]
  constructor
  · rintro (h | h | h | h)
    · exact Or.inl (Card.String_inj h)
    · exact Or.inr (Or.inl (Card.String_inj h))
    · exact Or.inr (Or.inr (Or.inl (Card.String_inj h)))
    · exact Or.inr (Or.inr (Or.inr (Card.String_inj h)))
  · rintro (h | h | h | h) <;> simp [h]

theorem scan_fold (c1 c2 : Card) (hs : ℚ) (l : Combos) (t : Tally) :
    l.foldl (scanStep c1 c2 hs) t =
      ⟨t.betterScores + (l.countP fun e => !skips c1 c2 e.1 && decide (e.2 > hs) : Nat),
       t.equalScores + (l.countP fun e => !skips c1 c2 e.1 && decide (e.2 = hs) : Nat),
       t.counted + (l.countP fun e => !skips c1 c2 e.1 : Nat)⟩ := by
  induction l generalizing t with
  | nil => simp
  | cons e l ih =>
    rw [List.foldl_cons, ih]
    simp only [List.countP_cons]
    unfold scanStep
    by_cases hk : skips c1 c2 e.1 = true
    · simp [hk]
    · rw [if_neg hk]
      have hk2 : skips c1 c2 e.1 = false := by simpa using hk
      by_cases h1 : e.2 > hs <;> by_cases h2 : e.2 = hs <;>
        simp [hk2, h1, h2, add_assoc, add_comm]

/-! ## The table against the reference counts -/

theorem covered_others_iff (c1 c2 x y : Card) (hxy : x ≠ y) :
    Covered (unorderedPairs (otherCards c1 c2)) x y ↔
      ¬ (x = c1 ∨ y = c1 ∨ x = c2 ∨ y = c2) := by
  constructor
  · intro h
    have hm : x ∈ otherCards c1 c2 ∧ y ∈ otherCards c1 c2 := by
      rcases h with h | h
      · exact mem_unorderedPairs h
      · exact (mem_unorderedPairs h).symm
    rw [mem_otherCards, mem_otherCards] at hm
    rintro (h | h | h | h)
    · exact hm.1.1 h
    · exact hm.2.1 h
    · exact hm.1.2 h
    · exact hm.2.2 h
  · intro h
    refine unorderedPairs_covers ?_ ?_ hxy
    · rw [mem_otherCards]
      exact ⟨fun e => h (Or.inl e), fun e => h (Or.inr (Or.inr (Or.inl e)))⟩
    · rw [mem_otherCards]
      exact ⟨fun e => h (Or.inr (Or.inl e)), fun e => h (Or.inr (Or.inr (Or.inr e)))⟩

theorem kept_perm (env : Env) (hd : ∀ k, (env.newDeck k).Perm fullDeck) (c1 c2 : Card) :
    (((buildPairs env).filter fun p => !skips c1 c2 (p.1.String ++ p.2.String)).map
      Sym2.mk).Perm ((unorderedPairs (otherCards c1 c2)).map Sym2.mk) := by
  have hg := buildPairs_ok env hd
  have hkeep : ∀ x y : Card, (!skips c1 c2 (x.String ++ y.String)) = true ↔
      ¬ (x = c1 ∨ y = c1 ∨ x = c2 ∨ y = c2) := by
    intro x y
    rw [← skips_key]
    simp
  refine perm_of_same_cover ⟨?_, ?_⟩ (unorderedPairs_ok (otherCards_nodup c1 c2)) ?_
  · exact hg.1.sublist ((List.filter_sublist _).map _)
  · intro p hp
    exact hg.2 p (List.mem_filter.1 hp).1
  · intro x y hxy
    rw [covered_others_iff c1 c2 x y hxy]
    unfold Covered
    rw [List.mem_filter, List.mem_filter, hkeep, hkeep]
    constructor
    · rintro (h | h)
      · exact h.2
      · intro hh
        exact h.2 (by tauto)
    · intro h
      rcases buildPairs_covers env hd x y hxy with hc | hc
      · exact Or.inl ⟨hc, h⟩
      · exact Or.inr ⟨hc, by tauto⟩

theorem counts_eq (env : Env) (hd : ∀ k, (env.newDeck k).Perm fullDeck) (c1 c2 : Card)
    (P : ℚ → Bool) :
    ((buildCombos env).countP fun e => !skips c1 c2 e.1 && P e.2) =
      (unorderedPairs (otherCards c1 c2)).countP fun p => P (comboScore p.1 p.2) := by
  rw [buildCombos_eq, List.countP_map, ← countP_score_eq (kept_perm env hd c1 c2) P,
    List.countP_filter]
  congr 1
  funext p
  simp [entryOf, Bool.and_comm]

theorem others_pairs_length (c1 c2 : Card) (h : c1 ≠ c2) :
    (unorderedPairs (otherCards c1 c2)).length = 1225 := by
  rw [unorderedPairs_length, otherCards_length c1 c2 h]
  rfl

theorem scan_eq (env : Env) (henv : env.Valid) (c1 c2 : Card) (h : c1 ≠ c2) :
    scan env c1 c2 = ⟨betterCount c1 c2, tiedCount c1 c2, 1225⟩ := by
  have hs : handScore (buildCombos env) c1 c2 = comboScore c1 c2 := by
    rw [buildCombos_eq]
    exact handScore_eq _ (buildPairs_ok env henv.1) c1 c2 (buildPairs_covers env henv.1 c1 c2 h)
  unfold scan
  simp only [hs, scan_fold, zero_add]
  rw [(henv.2 _).countP_eq, (henv.2 _).countP_eq, (henv.2 _).countP_eq]
  have hb := counts_eq env henv.1 c1 c2 fun v => decide (v > comboScore c1 c2)
  have hq := counts_eq env henv.1 c1 c2 fun v => decide (v = comboScore c1 c2)
  have hc := counts_eq env henv.1 c1 c2 fun _ => true
  simp only [Bool.and_true, List.countP_true, others_pairs_length c1 c2 h] at hc
  rw [hb, hq, hc]
  rfl

/-! ## The score in integers -/

theorem rankPoints_rank (r : Fin 13) :
    rankPoints (strRanks.getD r.val '2') = (points2 r : ℚ) / 2 := by
  fin_cases r <;> simp +decide [rankPoints, strRanks, points2] <;> norm_num

theorem gapPenalty_cast (r1 r2 : Int) : gapPenalty r1 r2 = (gapInt r1 r2 : ℚ) := by
  unfold gapPenalty gapInt
  simp only
  split_ifs <;> simp

theorem suit_eq_iff (a b : Card) : a.Suit = b.Suit ↔ a.suitIdx = b.suitIdx := by
  unfold Card.Suit
  constructor
  · intro h
    exact suitCode_inj _ _ (Nat.cast_inj.1 h)
  · intro h
    rw [h]

theorem rank_eq_iff (a b : Card) : a.Rank = b.Rank ↔ a.rankIdx = b.rankIdx := by
  unfold Card.Rank
  constructor
  · intro h
    exact Fin.ext (Nat.cast_inj.1 h)
  · intro h
    rw [h]

theorem mathRound_half (n : Int) : mathRound ((n : ℚ) / 2) = (roundHalf n : ℚ) := by
  unfold mathRound roundHalf
  have e1 : -((n : ℚ) / 2) + 1 / 2 = ((-n + 1 : ℤ) : ℚ) / ((2 : ℕ) : ℚ) := by
    push_cast
    ring
  have e2 : (n : ℚ) / 2 + 1 / 2 = ((n + 1 : ℤ) : ℚ) / ((2 : ℕ) : ℚ) := by
    push_cast
    ring
  have hlt : ((n : ℚ) / 2 < 0) ↔ n < 0 := by
    constructor
    · intro h
      have : (n : ℚ) < 0 := by linarith
      exact_mod_cast this
    · intro h
      have : (n : ℚ) < 0 := by exact_mod_cast h
      linarith
  by_cases h : n < 0
  · rw [if_pos (hlt.2 h), if_pos h, e1, Rat.floor_intCast_div_natCast]
    push_cast
    rfl
  · rw [if_neg (fun hh => h (hlt.1 hh)), if_neg h, e2, Rat.floor_intCast_div_natCast]
    rfl

theorem rawScore_eq (a b : Card) :
    rawScore a b = (raw2 a.rankIdx b.rankIdx (decide (a.suitIdx = b.suitIdx)) : ℚ) / 2 := by
  have ha : rankPoints (a.String.getD 0 '2') = (points2 a.rankIdx : ℚ) / 2 :=
    rankPoints_rank a.rankIdx
  have hb : rankPoints (b.String.getD 0 '2') = (points2 b.rankIdx : ℚ) / 2 :=
    rankPoints_rank b.rankIdx
  have hgt : ((points2 b.rankIdx : ℚ) / 2 > (points2 a.rankIdx : ℚ) / 2) ↔
      points2 b.rankIdx > points2 a.rankIdx := by
    constructor
    · intro h
      have : (points2 a.rankIdx : ℚ) < points2 b.rankIdx := by linarith
      exact_mod_cast this
    · intro h
      have : (points2 a.rankIdx : ℚ) < points2 b.rankIdx := by exact_mod_cast h
      linarith
  have hpen : ((gapInt a.Rank b.Rank : ℚ) < 2) ↔ gapInt a.Rank b.Rank < 2 := by
    constructor
    · intro h
      exact_mod_cast h
    · intro h
      exact_mod_cast h
  have hra : a.Rank < 10 ↔ a.rankIdx.val < 10 := by
    unfold Card.Rank
    omega
  have hrb : b.Rank < 10 ↔ b.rankIdx.val < 10 := by
    unfold Card.Rank
    omega
  have hR1 : a.Rank = (a.rankIdx.val : Int) := rfl
  have hR2 : b.Rank = (b.rankIdx.val : Int) := rfl
  unfold rawScore raw2
  simp only [ha, hb, hgt, gapPenalty_cast, hpen, suit_eq_iff, decide_eq_true_eq, hra, hrb]
  rw [hR1, hR2]
  split_ifs <;> push_cast <;> ring

theorem comboScore_eq (a b : Card) :
    comboScore a b = (scoreInt a.rankIdx b.rankIdx (decide (a.suitIdx = b.suitIdx)) : ℚ) := by
  have ha : rankPoints (a.String.getD 0 '2') = (points2 a.rankIdx : ℚ) / 2 :=
    rankPoints_rank a.rankIdx
  have hb : rankPoints (b.String.getD 0 '2') = (points2 b.rankIdx : ℚ) / 2 :=
    rankPoints_rank b.rankIdx
  have hgt : ((points2 b.rankIdx : ℚ) / 2 > (points2 a.rankIdx : ℚ) / 2) ↔
      points2 b.rankIdx > points2 a.rankIdx := by
    constructor
    · intro h
      have : (points2 a.rankIdx : ℚ) < points2 b.rankIdx := by linarith
      exact_mod_cast this
    · intro h
      have : (points2 a.rankIdx : ℚ) < points2 b.rankIdx := by exact_mod_cast h
      linarith
  have hz : ∀ z : Int, ((z : ℚ) / 2 * 2 > 5) ↔ z > 5 := by
    intro z
    constructor
    · intro h
      have : (5 : ℚ) < z := by linarith
      exact_mod_cast this
    · intro h
      have : (5 : ℚ) < z := by exact_mod_cast h
      linarith
  unfold comboScore scoreInt
  simp only [ha, hb, hgt, rank_eq_iff, rawScore_eq, mathRound_half]
  by_cases h1 : a.rankIdx = b.rankIdx
  · simp only [h1, if_true, gt_iff_lt, lt_self_iff_false, if_false]
    by_cases h2 : 5 < points2 b.rankIdx
    · rw [if_pos ((hz _).2 h2), if_pos h2]
      ring
    · rw [if_neg (fun hh => h2 ((hz _).1 hh)), if_neg h2]
      rfl
  · simp only [h1, if_false]

/-! ## The grid in closed form -/

theorem cell_fold_plan (envs : Nat → Env) (position : String) (includeTies : Bool) (row : Char)
    (l : List Char) (st : RowState) (ps : Bool × Nat × List (Option (Nat × Card × Card)))
    (h1 : st.unsuited = ps.1) (h2 : st.calls = ps.2.1)
    (h3 : st.cells = ps.2.2.map (Option.map (mkCell envs position includeTies))) :
    (l.foldl (cellStep envs position includeTies row) st).unsuited =
        (l.foldl (planStep row) ps).1 ∧
      (l.foldl (cellStep envs position includeTies row) st).calls =
        (l.foldl (planStep row) ps).2.1 ∧
      (l.foldl (cellStep envs position includeTies row) st).cells =
        (l.foldl (planStep row) ps).2.2.map (Option.map (mkCell envs position includeTies)) := by
  induction l generalizing st ps with
  | nil => exact ⟨h1, h2, h3⟩
  | cons c l ih =>
    rw [List.foldl_cons, List.foldl_cons]
    apply ih
    · show (if c = row then false else st.unsuited) = if c = row then false else ps.1
      rw [h1]
    · show st.calls + 1 = ps.2.1 + 1
      rw [h2]
    · unfold cellStep planStep
      simp only [List.map_append, h3, h1, h2, List.map_cons, List.map_nil]
      cases cellHand row c ps.1 <;> rfl

theorem row_fold_plan (envs : Nat → Env) (position : String) (includeTies : Bool)
    (l : List Char) (acc : Nat × List (List (Option Cell)))
    (pa : Nat × List (List (Option (Nat × Card × Card))))
    (h1 : acc.1 = pa.1)
    (h2 : acc.2 = pa.2.map (List.map (Option.map (mkCell envs position includeTies)))) :
    (l.foldl (rowStep envs position includeTies) acc).2 =
      (l.foldl planRow pa).2.map (List.map (Option.map (mkCell envs position includeTies))) := by
  induction l generalizing acc pa with
  | nil => exact h2
  | cons r l ih =>
    rw [List.foldl_cons, List.foldl_cons]
    have hc := cell_fold_plan envs position includeTies r ranks ⟨true, acc.1, []⟩
      (true, pa.1, []) rfl h1 rfl
    apply ih
    · exact hc.2.1
    · unfold rowStep planRow
      simp only [List.map_append, h2, List.map_cons, List.map_nil, hc.2.2]

theorem printGrid_plan (envs : Nat → Env) (position : String) (includeTies : Bool) :
    printGrid envs position includeTies =
      gridPlan.map (List.map (Option.map (mkCell envs position includeTies))) :=
  row_fold_plan envs position includeTies ranks (0, []) (0, []) rfl rfl

theorem gridPlan_eq :
    gridPlan = (List.finRange 13).map fun i => (List.finRange 13).map fun j =>
      some (13 * i.val + j.val, gridHand i j) := by
  decide

theorem printGrid_eq (envs : Nat → Env) (position : String) (includeTies : Bool) :
    printGrid envs position includeTies =
      (List.finRange 13).map fun i => (List.finRange 13).map fun j =>
        some (mkCell envs position includeTies (13 * i.val + j.val, gridHand i j)) := by
  rw [printGrid_plan, gridPlan_eq, List.map_map]
  refine List.map_congr_left fun i _ => ?_
  simp only [Function.comp, List.map_map]
  rfl

theorem mem_printGrid (envs : Nat → Env) (position : String) (includeTies : Bool)
    (row : List (Option Cell)) (hrow : row ∈ printGrid envs position includeTies)
    (c : Option Cell) (hc : c ∈ row) :
    ∃ i j : Fin 13, c = some (mkCell envs position includeTies (13 * i.val + j.val, gridHand i j)) := by
  rw [printGrid_eq] at hrow
  obtain ⟨i, _, rfl⟩ := List.mem_map.1 hrow
  obtain ⟨j, _, rfl⟩ := List.mem_map.1 hc
  exact ⟨i, j, rfl⟩

theorem gridHand_distinct : ∀ i j : Fin 13, (gridHand i j).1 ≠ (gridHand i j).2 := by
  decide

/-! ## Environments -/

theorem Env.plain_valid : Env.plain.Valid :=
  ⟨fun _ => List.Perm.refl _, fun _ => List.Perm.refl _⟩

theorem Env.rotated_valid : Env.rotated.Valid :=
  ⟨fun k => List.rotate_perm fullDeck k, fun m => List.reverse_perm m⟩

theorem betterCount_comm (c1 c2 : Card) : betterCount c1 c2 = betterCount c2 c1 := by
  have e : otherCards c1 c2 = otherCards c2 c1 := by
    unfold otherCards
    congr 1
    funext c
    by_cases h1 : c = c1 <;> by_cases h2 : c = c2 <;> simp [h1, h2]
  unfold betterCount
  rw [e, comboScore_comm c1 c2]

theorem tiedCount_comm (c1 c2 : Card) : tiedCount c1 c2 = tiedCount c2 c1 := by
  have e : otherCards c1 c2 = otherCards c2 c1 := by
    unfold otherCards
    congr 1
    funext c
    by_cases h1 : c = c1 <;> by_cases h2 : c = c2 <;> simp [h1, h2]
  unfold tiedCount
  rw [e, comboScore_comm c1 c2]

theorem countP_add_le {α : Type} (p q : α → Bool) (hpq : ∀ a, p a = true → q a = false)
    (l : List α) : l.countP p + l.countP q ≤ l.length := by
  induction l with
  | nil => simp
  | cons a l ih =>
    rw [List.countP_cons, List.countP_cons, List.length_cons]
    cases hp : p a
    · cases hq : q a
      · simp only [Bool.false_eq_true, if_false]
        omega
      · simp only [Bool.false_eq_true, if_false, if_true]
        omega
    · rw [hpq a hp]
      simp only [Bool.false_eq_true, if_false, if_true]
      omega

theorem better_add_tied_le (c1 c2 : Card) (h : c1 ≠ c2) :
    betterCount c1 c2 + tiedCount c1 c2 ≤ 1225 := by
  have key := countP_add_le (fun p : Card × Card => decide (comboScore p.1 p.2 > comboScore c1 c2))
    (fun p => decide (comboScore p.1 p.2 = comboScore c1 c2))
    (fun p hp => decide_eq_false (ne_of_gt (of_decide_eq_true hp)))
    (unorderedPairs (otherCards c1 c2))
  rw [others_pairs_length c1 c2 h] at key
  exact key

theorem computeWinProbality_eq (env : Env) (henv : env.Valid) (c1 c2 : Card) (h : c1 ≠ c2)
    (includeTies : Bool) :
    computeWinProbality env c1 c2 includeTies =
      if includeTies then 1 - (betterCount c1 c2 : ℚ) / 1225
      else 1 - ((betterCount c1 c2 : ℚ) + (tiedCount c1 c2 : ℚ)) / 1225 := by
  unfold computeWinProbality
  rw [scan_eq env henv c1 c2 h]
  cases includeTies <;> simp

theorem buildPairs_length (env : Env) (hd : ∀ k, (env.newDeck k).Perm fullDeck) :
    (buildPairs env).length = 1326 := by
  have hp : ((buildPairs env).map Sym2.mk).Perm ((unorderedPairs fullDeck).map Sym2.mk) := by
    refine perm_of_same_cover (buildPairs_ok env hd) (unorderedPairs_ok fullDeck_nodup) ?_
    intro x y hxy
    exact ⟨fun _ => unorderedPairs_covers (mem_fullDeck x) (mem_fullDeck y) hxy,
      fun _ => buildPairs_covers env hd x y hxy⟩
  have hl := hp.length_eq
  rw [List.length_map, List.length_map, unorderedPairs_length, fullDeck_length] at hl
  rw [hl]
  rfl

theorem not_both (g : List (Card × Card)) (hg : PairsOk g) (x y : Card) :
    ¬ ((x, y) ∈ g ∧ (y, x) ∈ g) := by
  rintro ⟨h1, h2⟩
  have he : (x, y) = (y, x) := List.inj_on_of_nodup_map hg.1 h1 h2 Sym2.eq_swap
  exact hg.2 _ h1 (Prod.mk.inj he).1

theorem if_gt_eq_max (p q : ℚ) : (if q > p then q else p) = max p q := by
  rw [max_def]
  by_cases h : p < q
  · rw [if_pos h, if_pos h.le]
  · rw [if_neg h]
    by_cases h2 : p ≤ q
    · rw [if_pos h2]
      exact le_antisymm (not_lt.1 h) h2 ▸ rfl
    · rw [if_neg h2]

theorem entry_score (env : Env) (x y : Card) (e : GoString × ℚ) (he : e ∈ buildCombos env)
    (hk : e.1 = x.String ++ y.String ∨ e.1 = y.String ++ x.String) : e.2 = comboScore x y := by
  rw [buildCombos_eq] at he
  obtain ⟨p, _, rfl⟩ := List.mem_map.1 he
  rcases hk with hk | hk
  · have h2 := key_inj hk
    show comboScore p.1 p.2 = _
    rw [h2.1, h2.2]
  · have h2 := key_inj hk
    show comboScore p.1 p.2 = _
    rw [h2.1, h2.2, comboScore_comm]

theorem entry_exists (env : Env) (hd : ∀ k, (env.newDeck k).Perm fullDeck) (x y : Card)
    (h : x ≠ y) : ∃ e ∈ buildCombos env,
      e.1 = x.String ++ y.String ∨ e.1 = y.String ++ x.String := by
  rw [buildCombos_eq]
  rcases buildPairs_covers env hd x y h with hc | hc
  · exact ⟨entryOf (x, y), List.mem_map_of_mem _ hc, Or.inl rfl⟩
  · exact ⟨entryOf (y, x), List.mem_map_of_mem _ hc, Or.inr rfl⟩

theorem pair_comboScore (x y : Card) (hr : x.rankIdx = y.rankIdx) :
    comboScore x y = max 5 (2 * rankPoints (strRanks.getD x.rankIdx.val '2')) := by
  have hx : rankPoints (x.String.getD 0 '2') = rankPoints (strRanks.getD x.rankIdx.val '2') := rfl
  have hy : rankPoints (y.String.getD 0 '2') = rankPoints (strRanks.getD x.rankIdx.val '2') := by
    rw [hr]
    rfl
  unfold comboScore
  simp only [hx, hy, gt_iff_lt, lt_self_iff_false, if_false, (rank_eq_iff x y).2 hr, if_true]
  rw [mul_comm 2 (rankPoints (strRanks.getD x.rankIdx.val '2')), max_def]
  by_cases h : 5 < rankPoints (strRanks.getD x.rankIdx.val '2') * 2
  · rw [if_pos h, if_pos h.le]
  · rw [if_neg h]
    by_cases h2 : 5 ≤ rankPoints (strRanks.getD x.rankIdx.val '2') * 2
    · rw [if_pos h2]
      exact le_antisymm h2 (not_lt.1 h)
    · rw [if_neg h2]

theorem rank_lt_ten_iff (c : Card) :
    c.Rank < 10 ↔ c.String.getD 0 '2' ∉ ['Q', 'K', 'A'] := by
  cases c with
  | mk r u => fin_cases r <;> simp +decide [Card.Rank, Card.String, strRanks]

theorem scoreInt_eval (a b : Card) (z : Int)
    (h : scoreInt a.rankIdx b.rankIdx (decide (a.suitIdx = b.suitIdx)) = z) :
    comboScore a b = (z : ℚ) := by
  rw [comboScore_eq, h]

theorem raw2_suited : ∀ r1 r2 : Fin 13, raw2 r1 r2 true = raw2 r1 r2 false + 4 := by
  intro r1 r2
  unfold raw2
  simp only [Bool.false_eq_true, if_true, if_false]
  split_ifs <;> ring

theorem scoreInt_suited : ∀ r1 r2 : Fin 13, r1 ≠ r2 →
    scoreInt r1 r2 true = scoreInt r1 r2 false +
      (if raw2 r1 r2 false = -1 ∨ raw2 r1 r2 false = -3 then 3 else 2) := by
  decide

theorem half_raw_iff : ∀ r1 r2 : Fin 13, r1 ≠ r2 →
    ((raw2 r1 r2 false = -1 ∨ raw2 r1 r2 false = -3) ↔
      (strRanks.getD r1.val '2', strRanks.getD r2.val '2') ∈
        [('9', '4'), ('9', '3'), ('9', '2'), ('7', '3'), ('7', '2'),
         ('4', '9'), ('3', '9'), ('2', '9'), ('3', '7'), ('2', '7')]) := by
  decide

theorem prob_bounds (env : Env) (henv : env.Valid) (c1 c2 : Card) (h : c1 ≠ c2)
    (includeTies : Bool) :
    0 ≤ computeWinProbality env c1 c2 includeTies ∧
      computeWinProbality env c1 c2 includeTies ≤ 1 := by
  have hle := better_add_tied_le c1 c2 h
  have hq : ((betterCount c1 c2 : ℚ) + (tiedCount c1 c2 : ℚ)) ≤ 1225 := by exact_mod_cast hle
  have hb : (0 : ℚ) ≤ betterCount c1 c2 := Nat.cast_nonneg _
  have ht : (0 : ℚ) ≤ tiedCount c1 c2 := Nat.cast_nonneg _
  rw [computeWinProbality_eq env henv c1 c2 h]
  cases includeTies
  · simp only [Bool.false_eq_true, if_false]
    constructor
    · rw [sub_nonneg, div_le_one (by norm_num)]
      exact hq
    · rw [sub_le_self_iff]
      exact div_nonneg (add_nonneg hb ht) (by norm_num)
  · simp only [if_true]
    constructor
    · rw [sub_nonneg, div_le_one (by norm_num)]
      linarith
    · rw [sub_le_self_iff]
      exact div_nonneg hb (by norm_num)

/-! ## The gap penalty and the rounding -/

theorem gapInt_table (r1 r2 : Int) :
    gapInt r1 r2 =
      if max (|r1 - r2| - 1) 0 = 0 then 0
      else if max (|r1 - r2| - 1) 0 = 1 then 1
      else if max (|r1 - r2| - 1) 0 = 2 then 2
      else if max (|r1 - r2| - 1) 0 = 3 then 4
      else 5 := by
  have e : max (|r1 - r2| - 1) 0 =
      (if (if r1 - r2 < 0 then -(r1 - r2) else r1 - r2) - 1 < 0 then 0
        else (if r1 - r2 < 0 then -(r1 - r2) else r1 - r2) - 1) := by
    rw [abs_eq_max_neg]
    split_ifs <;> omega
  rw [e]
  rfl

theorem mathRound_lt {x y : ℚ} (h : y + 1 ≤ x) : mathRound y < mathRound x := by
  unfold mathRound
  by_cases hx : x < 0
  · have hy : y < 0 := by linarith
    rw [if_pos hx, if_pos hy, neg_lt_neg_iff]
    have h1 : ⌊-x + 1 / 2⌋ + 1 ≤ ⌊-y + 1 / 2⌋ := by
      rw [← Int.floor_add_one]
      exact Int.floor_mono (by linarith)
    have h2 : ((⌊-x + 1 / 2⌋ : ℤ) : ℚ) + 1 ≤ ((⌊-y + 1 / 2⌋ : ℤ) : ℚ) := by exact_mod_cast h1
    linarith
  · rw [if_neg hx]
    by_cases hy : y < 0
    · rw [if_pos hy]
      by_cases hy2 : -y < 1 / 2
      · have f0 : ⌊-y + 1 / 2⌋ = 0 := by
          rw [Int.floor_eq_iff]
          constructor <;> push_cast <;> linarith
        have f1 : (1 : ℤ) ≤ ⌊x + 1 / 2⌋ := by
          rw [Int.le_floor]
          push_cast
          linarith
        have f2 : (1 : ℚ) ≤ ((⌊x + 1 / 2⌋ : ℤ) : ℚ) := by exact_mod_cast f1
        rw [f0]
        push_cast
        linarith
      · have f0 : (1 : ℤ) ≤ ⌊-y + 1 / 2⌋ := by
          rw [Int.le_floor]
          push_cast
          linarith
        have f1 : (0 : ℤ) ≤ ⌊x + 1 / 2⌋ := by
          rw [Int.le_floor]
          push_cast
          linarith
        have g0 : (1 : ℚ) ≤ ((⌊-y + 1 / 2⌋ : ℤ) : ℚ) := by exact_mod_cast f0
        have g1 : (0 : ℚ) ≤ ((⌊x + 1 / 2⌋ : ℤ) : ℚ) := by exact_mod_cast f1
        linarith
    · rw [if_neg hy]
      have h1 : ⌊y + 1 / 2⌋ + 1 ≤ ⌊x + 1 / 2⌋ := by
        rw [← Int.floor_add_one]
        exact Int.floor_mono (by linarith)
      have h2 : ((⌊y + 1 / 2⌋ : ℤ) : ℚ) + 1 ≤ ((⌊x + 1 / 2⌋ : ℤ) : ℚ) := by exact_mod_cast h1
      linarith

theorem gapInt_step (r1 r2 r3 r4 : Int)
    (h : min (|r1 - r2| - 1) 4 < min (|r3 - r4| - 1) 4) (h0 : 0 ≤ |r1 - r2| - 1) :
    gapInt r1 r2 + 1 ≤ gapInt r3 r4 := by
  rw [gapInt_table, gapInt_table]
  split_ifs <;> omega

theorem gapInt_far (r1 r2 : Int) (h : 4 ≤ |r1 - r2| - 1) : gapInt r1 r2 = 5 := by
  rw [gapInt_table]
  split_ifs <;> omega

theorem rawScore_no_connector (x y : Card) (h : ¬ getsConnector x y) :
    rawScore x y = highPoints x y + (if x.Suit = y.Suit then 2 else 0) -
      gapPenalty x.Rank y.Rank := by
  unfold getsConnector at h
  unfold rawScore highPoints
  simp only [if_gt_eq_max, if_neg h]
  split_ifs <;> ring

theorem rankGap_nonneg (x y : Card) (h : x.rankIdx ≠ y.rankIdx) : 0 ≤ rankGap x y := by
  have hne : x.Rank ≠ y.Rank := fun e => h ((rank_eq_iff x y).1 e)
  unfold rankGap
  have : x.Rank - y.Rank ≠ 0 := sub_ne_zero.2 hne
  have h2 : 0 < |x.Rank - y.Rank| := abs_pos.2 this
  omega

/-! ## The cells of the grid -/

theorem getD_map_finRange {α : Type} (f : Fin 13 → α) (d : α) (i : Fin 13) :
    ((List.finRange 13).map f).getD i.val d = f i := by
  rw [List.getD_eq_getElem?_getD, List.getElem?_map]
  have h : (List.finRange 13)[i.val]? = some i := by
    rw [List.getElem?_eq_getElem (by simp)]
    simp
  rw [h]
  rfl

theorem cellAt_printGrid (envs : Nat → Env) (position : String) (includeTies : Bool)
    (i j : Fin 13) :
    cellAt (printGrid envs position includeTies) i.val j.val =
      some (mkCell envs position includeTies (13 * i.val + j.val, gridHand i j)) := by
  rw [printGrid_eq]
  unfold cellAt
  rw [getD_map_finRange, getD_map_finRange]

theorem gridClasses_printGrid (envs : Nat → Env) (position : String) (includeTies : Bool) :
    gridClasses (printGrid envs position includeTies) = planClasses := by
  have e : (gridPlan.flatten.filterMap fun c => c.map fun kh => handClass kh.2) = planClasses := by
    rw [gridPlan_eq]
    decide!
  rw [← e, printGrid_plan]
  unfold gridClasses
  rw [← List.map_flatten, List.filterMap_map]
  congr 1
  funext c
  cases c <;> rfl

theorem classCell_handClass : ∀ i j : Fin 13,
    classCell (handClass (gridHand i j)) = (i.val, j.val) := by
  decide

theorem planClasses_facts :
    planClasses.Nodup ∧ planClasses.length = 169 ∧
    (planClasses.countP fun k => k.1 == k.2.1) = 13 ∧
    (planClasses.countP fun k => k.1 != k.2.1 && k.2.2) = 78 ∧
    (planClasses.countP fun k => k.1 != k.2.1 && !k.2.2) = 78 := by
  refine ⟨?_, by decide!, by decide!, by decide!, by decide!⟩
  unfold planClasses
  refine List.Nodup.map_on ?_ (List.Nodup.product (List.nodup_finRange 13) (List.nodup_finRange 13))
  intro x _ y _ hxy
  have h1 := classCell_handClass x.1 x.2
  have h2 := classCell_handClass y.1 y.2
  rw [hxy, h2] at h1
  exact Prod.ext (Fin.ext (Prod.mk.inj h1).1.symm) (Fin.ext (Prod.mk.inj h1).2.symm)

theorem gridHand_layout : ∀ i j : Fin 13,
    (gridHand i j).1.String.getD 0 '2' = ranks.getD j.val 'A' ∧
    (gridHand i j).2.String.getD 0 '2' = ranks.getD i.val 'A' ∧
    (i = j → (gridHand i j).1.rankIdx = (gridHand i j).2.rankIdx ∧
      (gridHand i j).1.suitIdx ≠ (gridHand i j).2.suitIdx) ∧
    (i < j → (gridHand i j).1.rankIdx ≠ (gridHand i j).2.rankIdx ∧
      (gridHand i j).1.suitIdx = (gridHand i j).2.suitIdx) ∧
    (j < i → (gridHand i j).1.rankIdx ≠ (gridHand i j).2.rankIdx ∧
      (gridHand i j).1.suitIdx ≠ (gridHand i j).2.suitIdx) ∧
    (gridHand i j).1.String.getD 1 's' = 'c' ∧
    (gridHand i j).2.String.getD 1 's' = (if j ≤ i then 's' else 'c') := by
  decide

/-! ## The top score -/

theorem scoreInt_le_twenty : ∀ (r1 r2 : Fin 13) (s : Bool), scoreInt r1 r2 s ≤ 20 := by
  decide

theorem comboScore_le_twenty (x y : Card) : comboScore x y ≤ 20 := by
  rw [comboScore_eq]
  exact_mod_cast scoreInt_le_twenty _ _ _

theorem comboScore_aces (a b : Card) (ha : a.rankIdx = 12) (hb : b.rankIdx = 12) :
    comboScore a b = 20 := by
  rw [comboScore_eq, ha, hb]
  have : scoreInt 12 12 (decide (a.suitIdx = b.suitIdx)) = 20 := by
    cases decide (a.suitIdx = b.suitIdx) <;> decide
  rw [this]
  norm_num

theorem betterCount_eq_zero (c1 c2 : Card)
    (hmax : ∀ x y : Card, x ≠ y → x ≠ c1 → x ≠ c2 → y ≠ c1 → y ≠ c2 →
      comboScore x y ≤ comboScore c1 c2) : betterCount c1 c2 = 0 := by
  unfold betterCount
  rw [List.countP_eq_zero]
  intro p hp
  have hm := mem_unorderedPairs hp
  rw [mem_otherCards, mem_otherCards] at hm
  have hne := (unorderedPairs_ok (otherCards_nodup c1 c2)).2 p hp
  simp only [gt_iff_lt, decide_eq_true_eq, not_lt]
  exact hmax p.1 p.2 hne hm.1.1 hm.1.2 hm.2.1 hm.2.2

theorem cellShown_nat (prob : ℚ) (position : String) (k : Nat)
    (h : cellExp position = (k : Int)) : cellShown prob (cellExp position) = prob ^ k * 100 := by
  unfold cellShown
  rw [h, zpow_natCast]

/-! ## Splitting the hands of the deck -/

theorem touching_ok (a b : Card) (hab : a ≠ b) : PairsOk (touching a b) := by
  have hA : ∀ x ∈ otherCards a b, x ≠ a ∧ x ≠ b := fun x hx => (mem_otherCards a b x).1 hx
  have injA : ∀ c : Card, (∀ x ∈ otherCards a b, x ≠ c) →
      (((otherCards a b).map (fun x => (c, x))).map Sym2.mk).Nodup := by
    intro c hc
    rw [List.map_map]
    refine List.Nodup.map_on ?_ (otherCards_nodup a b)
    intro x hx y _ hxy
    rcases Sym2.eq_iff.1 hxy with ⟨_, h2⟩ | ⟨_, h2⟩
    · exact h2
    · exact absurd h2 (hc x hx)
  refine ⟨?_, ?_⟩
  · unfold touching
    rw [List.map_append, List.nodup_append]
    refine ⟨injA a (fun x hx => (hA x hx).1), ?_, ?_⟩
    · rw [List.map_append, List.nodup_append]
      refine ⟨injA b (fun x hx => (hA x hx).2), List.nodup_singleton _, ?_⟩
      intro s hs1 hs2
      rw [List.map_map] at hs1
      obtain ⟨y, hy, rfl⟩ := List.mem_map.1 hs1
      rw [List.map_singleton, List.mem_singleton] at hs2
      rcases Sym2.eq_iff.1 hs2 with ⟨h1, _⟩ | ⟨_, h2⟩
      · exact hab h1.symm
      · exact (hA y hy).1 h2
    · intro s hs1 hs2
      rw [List.map_map] at hs1
      obtain ⟨x, hx, rfl⟩ := List.mem_map.1 hs1
      rw [List.map_append] at hs2
      rcases List.mem_append.1 hs2 with hs2 | hs2
      · rw [List.map_map] at hs2
        obtain ⟨y, hy, he⟩ := List.mem_map.1 hs2
        rcases Sym2.eq_iff.1 he with ⟨h1, _⟩ | ⟨_, h2⟩
        · exact hab h1.symm
        · exact (hA y hy).1 h2
      · rw [List.map_singleton, List.mem_singleton] at hs2
        rcases Sym2.eq_iff.1 hs2 with ⟨_, h2⟩ | ⟨h1, _⟩
        · exact (hA x hx).2 h2
        · exact hab h1
  · intro p hp
    unfold touching at hp
    rcases List.mem_append.1 hp with hp | hp
    · obtain ⟨x, hx, rfl⟩ := List.mem_map.1 hp
      exact fun e => (hA x hx).1 e.symm
    · rcases List.mem_append.1 hp with hp | hp
      · obtain ⟨x, hx, rfl⟩ := List.mem_map.1 hp
        exact fun e => (hA x hx).2 e.symm
      · rw [List.mem_singleton] at hp
        subst hp
        exact hab

theorem touching_covers (a b x y : Card) (hxy : x ≠ y) :
    Covered (touching a b) x y ↔ (x = a ∨ y = a ∨ x = b ∨ y = b) := by
  have hA : ∀ z, z ∈ otherCards a b ↔ z ≠ a ∧ z ≠ b := mem_otherCards a b
  have m1 : ∀ u v : Card, (u, v) ∈ touching a b ↔
      (u = a ∧ v ≠ a ∧ v ≠ b) ∨ (u = b ∧ v ≠ a ∧ v ≠ b) ∨ (u = a ∧ v = b) := by
    intro u v
    unfold touching
    simp only [List.mem_append, List.mem_map, List.mem_singleton, Prod.mk.injEq, hA]
    constructor
    · rintro (⟨z, hz, h1, h2⟩ | ⟨z, hz, h1, h2⟩ | ⟨h1, h2⟩)
      · exact Or.inl ⟨h1.symm, h2 ▸ hz⟩
      · exact Or.inr (Or.inl ⟨h1.symm, h2 ▸ hz⟩)
      · exact Or.inr (Or.inr ⟨h1, h2⟩)
    · rintro (⟨h1, h2⟩ | ⟨h1, h2⟩ | ⟨h1, h2⟩)
      · exact Or.inl ⟨v, h2, h1.symm, rfl⟩
      · exact Or.inr (Or.inl ⟨v, h2, h1.symm, rfl⟩)
      · exact Or.inr (Or.inr ⟨h1, h2⟩)
  unfold Covered
  rw [m1, m1]
  constructor
  · rintro ((⟨h1, _⟩ | ⟨h1, _⟩ | ⟨h1, _⟩) | (⟨h1, _⟩ | ⟨h1, _⟩ | ⟨h1, _⟩))
    · exact Or.inl h1
    · exact Or.inr (Or.inr (Or.inl h1))
    · exact Or.inl h1
    · exact Or.inr (Or.inl h1)
    · exact Or.inr (Or.inr (Or.inr h1))
    · exact Or.inr (Or.inl h1)
  · intro h
    by_cases hxa : x = a
    · by_cases hyb : y = b
      · exact Or.inl (Or.inr (Or.inr ⟨hxa, hyb⟩))
      · exact Or.inl (Or.inl ⟨hxa, fun e => hxy (hxa.trans e.symm), hyb⟩)
    · by_cases hxb : x = b
      · by_cases hya : y = a
        · exact Or.inr (Or.inr (Or.inr ⟨hya, hxb⟩))
        · exact Or.inl (Or.inr (Or.inl ⟨hxb, hya, fun e => hxy (hxb.trans e.symm)⟩))
      · rcases h with h | h | h | h
        · exact absurd h hxa
        · exact Or.inr (Or.inl ⟨h, hxa, hxb⟩)
        · exact absurd h hxb
        · exact Or.inr (Or.inr (Or.inl ⟨h, hxa, hxb⟩))

theorem pairsOk_append {l1 l2 : List (Card × Card)} (h1 : PairsOk l1) (h2 : PairsOk l2)
    (hd : ∀ x y, Covered l1 x y → Covered l2 x y → False) : PairsOk (l1 ++ l2) := by
  refine ⟨?_, ?_⟩
  · rw [List.map_append, List.nodup_append]
    refine ⟨h1.1, h2.1, ?_⟩
    intro s hs1 hs2
    induction s using Sym2.ind with
    | _ x y => exact hd x y ((mk_mem_map_iff l1 x y).1 hs1) ((mk_mem_map_iff l2 x y).1 hs2)
  · intro p hp
    rcases List.mem_append.1 hp with hp | hp
    · exact h1.2 p hp
    · exact h2.2 p hp

theorem covered_append (l1 l2 : List (Card × Card)) (x y : Card) :
    Covered (l1 ++ l2) x y ↔ Covered l1 x y ∨ Covered l2 x y := by
  unfold Covered
  simp only [List.mem_append]
  tauto

/-- Every two-card hand of the deck either avoids `a` and `b` or holds one of
them: as lists of unordered pairs the hands of the deck are the hands of the
other 50 cards followed by the hands touching `a` or `b`. -/
theorem deck_pairs_split (a b : Card) (hab : a ≠ b) :
    ((unorderedPairs fullDeck).map Sym2.mk).Perm
      ((unorderedPairs (otherCards a b) ++ touching a b).map Sym2.mk) := by
  have hok : PairsOk (unorderedPairs (otherCards a b) ++ touching a b) := by
    refine pairsOk_append (unorderedPairs_ok (otherCards_nodup a b)) (touching_ok a b hab) ?_
    intro x y h1 h2
    have hxy : x ≠ y := by
      rcases h1 with h1 | h1
      · exact (unorderedPairs_ok (otherCards_nodup a b)).2 _ h1
      · exact fun e => (unorderedPairs_ok (otherCards_nodup a b)).2 _ h1 e.symm
    exact (covered_others_iff a b x y hxy).1 h1 ((touching_covers a b x y hxy).1 h2)
  refine perm_of_same_cover (unorderedPairs_ok fullDeck_nodup) hok ?_
  intro x y hxy
  constructor
  · intro _
    rw [covered_append, covered_others_iff a b x y hxy, touching_covers a b x y hxy]
    tauto
  · intro _
    exact unorderedPairs_covers (mem_fullDeck x) (mem_fullDeck y) hxy


/-! ## The score table is the score -/

theorem tableAt_spec : ∀ (r1 r2 : Fin 13) (s : Bool),
    (tableAt r1.val r2.val s : Int) = scoreInt r1 r2 s + 5 := by
  decide!

theorem tScore_spec (x y : Card) : comboScore x y = (tScore x y : ℚ) - 5 := by
  rw [comboScore_eq]
  have h := tableAt_spec x.rankIdx y.rankIdx (decide (x.suitIdx = y.suitIdx))
  have h2 : ((tScore x y : Int) : ℚ) =
      ((scoreInt x.rankIdx y.rankIdx (decide (x.suitIdx = y.suitIdx)) + 5 : Int) : ℚ) := by
    unfold tScore
    rw [h]
  push_cast at h2
  rw [h2]
  ring

theorem tScore_comm (x y : Card) : tScore x y = tScore y x := by
  have h1 := tScore_spec x y
  have h2 := tScore_spec y x
  rw [comboScore_comm x y, h2] at h1
  have h3 : (tScore y x : ℚ) = (tScore x y : ℚ) := by linarith
  exact_mod_cast h3.symm

theorem blt_eq_decide (m n : Nat) : Nat.blt m n = decide (m < n) := by
  by_cases h : m < n
  · rw [decide_eq_true h]
    simpa using h
  · rw [decide_eq_false h]
    cases hb : Nat.blt m n
    · rfl
    · exact absurd (by simpa using hb) h

theorem ble_eq_decide (m n : Nat) : Nat.ble m n = decide (m ≤ n) := by
  by_cases h : m ≤ n
  · rw [decide_eq_true h]
    simpa using h
  · rw [decide_eq_false h]
    cases hb : Nat.ble m n
    · rfl
    · exact absurd (by simpa using hb) h

theorem gt_tScore (a b x y : Card) :
    decide (comboScore x y > comboScore a b) = Nat.blt (tScore a b) (tScore x y) := by
  rw [tScore_spec, tScore_spec, blt_eq_decide]
  have e : ((tScore x y : ℚ) - 5 > (tScore a b : ℚ) - 5) ↔ tScore a b < tScore x y := by
    constructor
    · intro h
      have : (tScore a b : ℚ) < (tScore x y : ℚ) := by linarith
      exact_mod_cast this
    · intro h
      have : (tScore a b : ℚ) < (tScore x y : ℚ) := by exact_mod_cast h
      linarith
  exact decide_eq_decide.2 e

theorem ge_tScore (a b x y : Card) :
    decide (comboScore x y ≥ comboScore a b) = Nat.ble (tScore a b) (tScore x y) := by
  rw [tScore_spec, tScore_spec, ble_eq_decide]
  have e : ((tScore x y : ℚ) - 5 ≥ (tScore a b : ℚ) - 5) ↔ tScore a b ≤ tScore x y := by
    constructor
    · intro h
      have : (tScore a b : ℚ) ≤ (tScore x y : ℚ) := by linarith
      exact_mod_cast this
    · intro h
      have : (tScore a b : ℚ) ≤ (tScore x y : ℚ) := by exact_mod_cast h
      linarith
  exact decide_eq_decide.2 e

/-! ## Counting the hands of one card by rank -/

theorem four_suits (G : Bool → Bool) : ∀ ua : Fin 4,
    ((List.finRange 4).countP fun u => G (decide (ua = u))) =
      (G true).toNat + 3 * (G false).toNat := by
  intro ua
  cases h1 : G true <;> cases h2 : G false <;> fin_cases ua <;>
    simp +decide [List.finRange, List.countP_cons, h1, h2]

theorem card_ne_iff (r : Fin 13) (u : Fin 4) (a : Card) :
    decide (Card.mk r u ≠ a) = !(decide (r = a.rankIdx) && decide (a.suitIdx = u)) := by
  cases a with
  | mk ra ua =>
    have e : (Card.mk r u = Card.mk ra ua) ↔ (r = ra ∧ ua = u) := by
      constructor
      · intro h
        exact ⟨congrArg Card.rankIdx h, (congrArg Card.suitIdx h).symm⟩
      · rintro ⟨h1, h2⟩
        rw [h1, h2]
    show decide (¬ (Card.mk r u = Card.mk ra ua)) = !(decide (r = ra) && decide (ua = u))
    rw [decide_not, ← Bool.decide_and]
    exact congrArg _ (decide_eq_decide.2 e)

theorem countP_one_card (pN : Nat → Bool) (a : Card) :
    (fullDeck.countP fun x => decide (x ≠ a) && pN (tScore a x)) =
      rankSum pN a.rankIdx.val := by
  unfold fullDeck rankSum
  rw [List.countP_flatMap, ← List.map_coe_finRange, List.map_map]
  congr 1
  refine List.map_congr_left fun r _ => ?_
  simp only [Function.comp, List.countP_map]
  have e : ∀ u : Fin 4, (decide (Card.mk r u ≠ a) && pN (tScore a (Card.mk r u))) =
      (fun b => !(decide (r = a.rankIdx) && b) && pN (tableAt a.rankIdx.val r.val b))
        (decide (a.suitIdx = u)) := by
    intro u
    rw [card_ne_iff]
    rfl
  have e2 : ((fun x => decide (x ≠ a) && pN (tScore a x)) ∘ fun u => Card.mk r u) =
      fun u => (fun b => !(decide (r = a.rankIdx) && b) && pN (tableAt a.rankIdx.val r.val b))
        (decide (a.suitIdx = u)) := funext e
  rw [e2]
  refine (four_suits (fun b => !(decide (r = a.rankIdx) && b) &&
    pN (tableAt a.rankIdx.val r.val b)) a.suitIdx).trans ?_
  unfold rankTerm
  by_cases hr : r = a.rankIdx
  · subst hr
    simp
  · have hv : ¬ r.val = a.rankIdx.val := fun h => hr (Fin.ext h)
    simp [hr, hv]

/-! ## Counting all hands of the deck through the hands of each card -/

theorem countP_sym_eq {β : Type} (f : Card → Card → β) (hf : ∀ a b, f a b = f b a)
    {g u : List (Card × Card)} (hperm : (g.map Sym2.mk).Perm (u.map Sym2.mk)) (P : β → Bool) :
    g.countP (fun p => P (f p.1 p.2)) = u.countP (fun p => P (f p.1 p.2)) := by
  have e : ∀ l : List (Card × Card),
      l.countP (fun p => P (f p.1 p.2)) =
        (l.map Sym2.mk).countP (fun s => P (Sym2.lift ⟨f, hf⟩ s)) := by
    intro l
    rw [List.countP_map]
    rfl
  rw [e g, e u]
  exact hperm.countP_eq _

/-- The count of a property of a symmetric score over all hands of the deck splits
into the count over the hands of the other 50 cards, the counts over the hands
of `a` and of `b` with another card, and the hand `a`, `b` itself. -/
theorem countP_split_sym {β : Type} (f : Card → Card → β) (hf : ∀ a b, f a b = f b a)
    (a b : Card) (hab : a ≠ b) (P : β → Bool) :
    ((unorderedPairs fullDeck).countP fun p => P (f p.1 p.2)) =
      ((unorderedPairs (otherCards a b)).countP fun p => P (f p.1 p.2)) +
        (((otherCards a b).countP fun x => P (f a x)) +
          (((otherCards a b).countP fun x => P (f b x)) + (P (f a b)).toNat)) := by
  rw [countP_sym_eq f hf (deck_pairs_split a b hab) P, List.countP_append]
  unfold touching
  rw [List.countP_append, List.countP_append, List.countP_map, List.countP_map]
  simp only [List.countP_cons, List.countP_nil, zero_add]
  cases P (f a b) <;> rfl

theorem countP_remove_one (l : List Card) (hl : l.Nodup) (b : Card) (hb : b ∈ l)
    (q : Card → Bool) :
    l.countP q = (l.countP fun x => q x && decide (x ≠ b)) + (q b).toNat := by
  induction l with
  | nil => exact absurd hb (List.not_mem_nil b)
  | cons x xs ih =>
    obtain ⟨hx, hxs⟩ := List.nodup_cons.1 hl
    rw [List.countP_cons, List.countP_cons]
    by_cases hxb : x = b
    · subst hxb
      have e : (xs.countP fun y => q y && decide (y ≠ x)) = xs.countP q := by
        refine List.countP_congr fun y hy => ?_
        have : y ≠ x := fun e => hx (e ▸ hy)
        simp [this]
      rw [e]
      cases q x <;> simp
    · have hb2 : b ∈ xs := by
        rcases List.mem_cons.1 hb with h | h
        · exact absurd h.symm hxb
        · exact h
      rw [ih hxs hb2]
      cases q x <;> simp [hxb]
      omega

theorem otherCards_comm (a b : Card) : otherCards a b = otherCards b a := by
  unfold otherCards
  congr 1
  funext c
  by_cases h1 : c = a <;> by_cases h2 : c = b <;> simp [h1, h2]

/-- The hands of `a` with a card other than `a` and `b`, counted by rank. -/
theorem countP_touch (pN : Nat → Bool) (a b : Card) (hab : a ≠ b) :
    ((otherCards a b).countP fun x => pN (tScore a x)) + (pN (tScore a b)).toNat =
      rankSum pN a.rankIdx.val := by
  rw [← countP_one_card pN a,
    countP_remove_one fullDeck fullDeck_nodup b (mem_fullDeck b)
      (fun x => decide (x ≠ a) && pN (tScore a x))]
  have e1 : (decide (b ≠ a) && pN (tScore a b)) = pN (tScore a b) := by
    simp [Ne.symm hab]
  rw [e1]
  congr 1
  unfold otherCards
  rw [List.countP_filter]
  refine List.countP_congr fun x _ => ?_
  by_cases h1 : x = a <;> by_cases h2 : x = b <;> simp [h1, h2]

theorem sum_indicator (l : List Card) (q : Card → Bool) :
    (l.map fun a => (q a).toNat).sum = l.countP q := by
  induction l with
  | nil => rfl
  | cons x xs ih =>
    rw [List.map_cons, List.sum_cons, ih, List.countP_cons]
    cases q x <;> simp
    omega

/-- Every hand is counted once from each of its two cards. -/
theorem double_count (g : Card → Card → Bool) (hg : ∀ a b, g a b = g b a) (l : List Card)
    (hl : l.Nodup) :
    (l.map fun a => l.countP fun x => decide (x ≠ a) && g a x).sum =
      2 * (unorderedPairs l).countP fun p => g p.1 p.2 := by
  induction l with
  | nil => rfl
  | cons x xs ih =>
    obtain ⟨hx, hxs⟩ := List.nodup_cons.1 hl
    have e1 : ((x :: xs).countP fun y => decide (y ≠ x) && g x y) = xs.countP fun y => g x y := by
      rw [List.countP_cons]
      have : (xs.countP fun y => decide (y ≠ x) && g x y) = xs.countP fun y => g x y := by
        refine List.countP_congr fun y hy => ?_
        have : y ≠ x := fun e => hx (e ▸ hy)
        simp [this]
      rw [this]
      simp
    have e2 : (xs.map fun a => (x :: xs).countP fun y => decide (y ≠ a) && g a y) =
        xs.map fun a => (g x a).toNat + xs.countP fun y => decide (y ≠ a) && g a y := by
      refine List.map_congr_left fun a ha => ?_
      have hne : x ≠ a := fun e => hx (e ▸ ha)
      rw [List.countP_cons]
      have : (decide (x ≠ a) && g a x) = g x a := by
        rw [hg a x]
        simp [hne]
      rw [this]
      cases g x a <;> simp
      omega
    have e3 : ((unorderedPairs (x :: xs)).countP fun p => g p.1 p.2) =
        (xs.countP fun y => g x y) + (unorderedPairs xs).countP fun p => g p.1 p.2 := by
      show ((xs.map (fun y => (x, y)) ++ unorderedPairs xs).countP fun p => g p.1 p.2) = _
      rw [List.countP_append, List.countP_map]
      rfl
    rw [List.map_cons, List.sum_cons, e1, e2, e3, List.sum_map_add, ih hxs,
      sum_indicator xs (fun y => g x y)]
    ring

theorem sum_cards (G : Nat → Nat) (l : List (Fin 13)) :
    ((l.flatMap fun r => (List.finRange 4).map fun u => Card.mk r u).map
      fun a => G a.rankIdx.val).sum = 4 * (l.map fun r => G r.val).sum := by
  induction l with
  | nil => rfl
  | cons r rs ih =>
    rw [List.flatMap_cons, List.map_append, List.sum_append, ih, List.map_cons, List.sum_cons,
      List.map_map]
    have e : ((fun a : Card => G a.rankIdx.val) ∘ fun u => Card.mk r u) = fun _ => G r.val := rfl
    rw [e, List.map_const', List.sum_replicate, List.length_finRange, smul_eq_mul]
    ring

theorem sum_fullDeck (G : Nat → Nat) :
    (fullDeck.map fun a => G a.rankIdx.val).sum = 4 * ((List.range 13).map G).sum := by
  unfold fullDeck
  rw [sum_cards G, ← List.map_coe_finRange, List.map_map]
  rfl

/-- The number of hands of the deck whose table score satisfies `pN`, from the
counts by rank. -/
theorem countP_deck (pN : Nat → Bool) :
    ((unorderedPairs fullDeck).countP fun p => pN (tScore p.1 p.2)) =
      2 * ((List.range 13).map (rankSum pN)).sum := by
  have h := double_count (fun a x => pN (tScore a x)) (fun a b => congrArg pN (tScore_comm a b))
    fullDeck fullDeck_nodup
  have e : (fullDeck.map fun a => fullDeck.countP fun x => decide (x ≠ a) && pN (tScore a x)) =
      fullDeck.map fun a => rankSum pN a.rankIdx.val := by
    refine List.map_congr_left fun a _ => ?_
    exact countP_one_card pN a
  rw [e, sum_fullDeck (rankSum pN)] at h
  beta_reduce at h
  omega

/-! ## The counts of every class of hands -/

theorem aboveAll_table : ∀ s : Fin 32, aboveAll s.val = aboveTab.getD s.val 0 := by
  decide!

theorem classOk_all : ∀ (r1 r2 : Fin 13) (suited : Bool), classOk r1.val r2.val suited = true := by
  decide!

/-! ## Bounds on the counts of a hand -/

theorem countP_gt_add_eq (l : List (Card × Card)) (v : ℚ) :
    (l.countP fun p => decide (comboScore p.1 p.2 > v)) +
      (l.countP fun p => decide (comboScore p.1 p.2 = v)) =
        l.countP fun p => decide (comboScore p.1 p.2 ≥ v) := by
  induction l with
  | nil => rfl
  | cons x xs ih =>
    rw [List.countP_cons, List.countP_cons, List.countP_cons, ← ih]
    rcases lt_trichotomy (comboScore x.1 x.2) v with h | h | h
    · have h1 : ¬ comboScore x.1 x.2 > v := not_lt.2 h.le
      have h2 : ¬ comboScore x.1 x.2 = v := h.ne
      have h3 : ¬ comboScore x.1 x.2 ≥ v := not_le.2 h
      simp [h1, h2, h3]
    · have h1 : ¬ comboScore x.1 x.2 > v := not_lt.2 h.le
      have h3 : comboScore x.1 x.2 ≥ v := h.ge
      simp [h1, h, h3]
      omega
    · have h1 : comboScore x.1 x.2 > v := h
      have h2 : ¬ comboScore x.1 x.2 = v := h.ne.symm
      have h3 : comboScore x.1 x.2 ≥ v := h.le
      simp [h1, h2, h3]
      omega

theorem rank_counts (pN : Nat → Bool) (a b : Card) (hab : a ≠ b) :
    ((unorderedPairs (otherCards a b)).countP fun p => pN (tScore p.1 p.2)) +
        (rankSum pN a.rankIdx.val + rankSum pN b.rankIdx.val) =
      2 * ((List.range 13).map (rankSum pN)).sum + (pN (tScore a b)).toNat := by
  have split := countP_split_sym tScore tScore_comm a b hab pN
  rw [countP_deck pN] at split
  have ta := countP_touch pN a b hab
  have tb := countP_touch pN b a hab.symm
  rw [otherCards_comm b a, tScore_comm b a] at tb
  omega

theorem betterCount_table (a b : Card) (hab : a ≠ b) :
    betterCount a b +
        (rankSum (Nat.blt (tScore a b)) a.rankIdx.val +
          rankSum (Nat.blt (tScore a b)) b.rankIdx.val) =
      aboveAll (tScore a b) := by
  have e : betterCount a b =
      (unorderedPairs (otherCards a b)).countP fun p => Nat.blt (tScore a b) (tScore p.1 p.2) := by
    unfold betterCount
    exact List.countP_congr fun p _ => by rw [gt_tScore]
  have h := rank_counts (Nat.blt (tScore a b)) a b hab
  have e2 : Nat.blt (tScore a b) (tScore a b) = false := by
    rw [blt_eq_decide]
    simp
  rw [e2] at h
  rw [e]
  unfold aboveAll
  simpa using h

theorem losingCount_table (a b : Card) (hab : a ≠ b) (hs : 1 ≤ tScore a b) :
    betterCount a b + tiedCount a b +
        (rankSum (Nat.blt (tScore a b - 1)) a.rankIdx.val +
          rankSum (Nat.blt (tScore a b - 1)) b.rankIdx.val) =
      aboveAll (tScore a b - 1) + 1 := by
  have e : betterCount a b + tiedCount a b =
      (unorderedPairs (otherCards a b)).countP
        fun p => Nat.blt (tScore a b - 1) (tScore p.1 p.2) := by
    unfold betterCount tiedCount
    rw [countP_gt_add_eq]
    refine List.countP_congr fun p _ => ?_
    rw [ge_tScore, ble_eq_decide, blt_eq_decide]
    have e1 : tScore a b ≤ tScore p.1 p.2 ↔ tScore a b - 1 < tScore p.1 p.2 := by omega
    rw [decide_eq_decide.2 e1]
  have h := rank_counts (Nat.blt (tScore a b - 1)) a b hab
  have e2 : Nat.blt (tScore a b - 1) (tScore a b) = true := by
    rw [blt_eq_decide]
    exact decide_eq_true (by omega)
  rw [e2] at h
  rw [e]
  unfold aboveAll
  simpa using h

/-- A hand of table score `s` has between `cutT[s + 1]` and `cutT[s]` better hands
among the other 50 cards, and between `cutF[s + 1]` and `cutF[s]` better or tied
hands. -/
theorem hand_bounds (a b : Card) (hab : a ≠ b) :
    cutT.getD (tScore a b + 1) 0 ≤ betterCount a b ∧
      betterCount a b ≤ cutT.getD (tScore a b) 0 ∧
      cutF.getD (tScore a b + 1) 0 ≤ betterCount a b + tiedCount a b ∧
      betterCount a b + tiedCount a b ≤ cutF.getD (tScore a b) 0 := by
  have hc := classOk_all a.rankIdx b.rankIdx (decide (a.suitIdx = b.suitIdx))
  unfold classOk at hc
  have hno : (a.rankIdx.val == b.rankIdx.val && decide (a.suitIdx = b.suitIdx)) = false := by
    rw [Bool.and_eq_false_iff]
    by_cases hr : a.rankIdx = b.rankIdx
    · right
      refine decide_eq_false fun hu => hab ?_
      cases a
      cases b
      simp only at hr hu
      rw [hr, hu]
    · left
      simpa using fun h => hr (Fin.ext h)
  simp only [hno, Bool.false_or, Bool.and_eq_true, Nat.ble_eq] at hc
  have et : tableAt a.rankIdx.val b.rankIdx.val (decide (a.suitIdx = b.suitIdx)) = tScore a b :=
    rfl
  rw [et] at hc
  obtain ⟨⟨⟨⟨⟨h1, h31⟩, h3⟩, h4⟩, h5⟩, h6⟩ := hc
  have hb := betterCount_table a b hab
  have hl := losingCount_table a b hab h1
  have hA : aboveAll (tScore a b) = aboveTab.getD (tScore a b) 0 :=
    aboveAll_table ⟨tScore a b, by omega⟩
  have hA1 : aboveAll (tScore a b - 1) = aboveTab.getD (tScore a b - 1) 0 :=
    aboveAll_table ⟨tScore a b - 1, by omega⟩
  rw [hA] at hb
  rw [hA1] at hl
  exact ⟨by omega, by omega, by omega, by omega⟩

theorem cutT_antitone (s t : Nat) (h : s ≤ t) : cutT.getD t 0 ≤ cutT.getD s 0 := by
  by_cases ht : t < 33
  · have key : ∀ s t : Fin 33, s ≤ t → cutT.getD t.val 0 ≤ cutT.getD s.val 0 := by decide
    exact key ⟨s, by omega⟩ ⟨t, ht⟩ h
  · rw [List.getD_eq_default _ _ (by simpa [cutT] using ht)]
    exact Nat.zero_le _

theorem cutF_antitone (s t : Nat) (h : s ≤ t) : cutF.getD t 0 ≤ cutF.getD s 0 := by
  by_cases ht : t < 33
  · have key : ∀ s t : Fin 33, s ≤ t → cutF.getD t.val 0 ≤ cutF.getD s.val 0 := by decide
    exact key ⟨s, by omega⟩ ⟨t, ht⟩ h
  · rw [List.getD_eq_default _ _ (by simpa [cutF] using ht)]
    exact Nat.zero_le _

theorem tScore_lt_iff (a b x y : Card) :
    comboScore a b < comboScore x y ↔ tScore a b < tScore x y := by
  rw [tScore_spec, tScore_spec]
  constructor
  · intro h
    have : (tScore a b : ℚ) < (tScore x y : ℚ) := by linarith
    exact_mod_cast this
  · intro h
    have : (tScore a b : ℚ) < (tScore x y : ℚ) := by exact_mod_cast h
    linarith

/-- A hand that scores more has at most as many better hands, and at most as many
better or tied hands. -/
theorem counts_antitone (a1 a2 b1 b2 : Card) (ha : a1 ≠ a2) (hb : b1 ≠ b2)
    (h : comboScore b1 b2 < comboScore a1 a2) :
    betterCount a1 a2 ≤ betterCount b1 b2 ∧
      betterCount a1 a2 + tiedCount a1 a2 ≤ betterCount b1 b2 + tiedCount b1 b2 := by
  have hs := (tScore_lt_iff b1 b2 a1 a2).1 h
  obtain ⟨_, a2h, _, a4⟩ := hand_bounds a1 a2 ha
  obtain ⟨b1h, _, b3, _⟩ := hand_bounds b1 b2 hb
  have c1 := cutT_antitone (tScore b1 b2 + 1) (tScore a1 a2) hs
  have c2 := cutF_antitone (tScore b1 b2 + 1) (tScore a1 a2) hs
  exact ⟨by omega, by omega⟩

/-! ## The scores of the grid hands -/

theorem gridHand_scores :
    tScore (gridHand 0 0).1 (gridHand 0 0).2 = 25 ∧
      ∀ i j : Fin 13, (i, j) ≠ (0, 0) → tScore (gridHand i j).1 (gridHand i j).2 ≤ 21 := by
  decide!

/-- With ties excluded, a hand of table score 25 gets a strictly greater
probability than a hand of table score at most 21. -/
theorem top_score_prob_lt (env1 env2 : Env) (h1 : env1.Valid) (h2 : env2.Valid)
    (a b c d : Card) (hab : a ≠ b) (hcd : c ≠ d) (hs : tScore a b = 25)
    (ht : tScore c d ≤ 21) :
    computeWinProbality env2 c d false < computeWinProbality env1 a b false := by
  have htop : (betterCount a b : ℚ) + (tiedCount a b : ℚ) ≤ 1 := by
    have hb := (hand_bounds a b hab).2.2.2
    rw [hs] at hb
    have e : cutF.getD 25 0 = 1 := by decide
    rw [e] at hb
    exact_mod_cast hb
  have hlow : (7 : ℚ) ≤ (betterCount c d : ℚ) + (tiedCount c d : ℚ) := by
    have hb := (hand_bounds c d hcd).2.2.1
    have ha := cutF_antitone _ 22 (Nat.succ_le_succ ht)
    have e : cutF.getD 22 0 = 7 := by decide
    rw [e] at ha
    exact_mod_cast ha.trans hb
  rw [computeWinProbality_eq env1 h1 a b hab, computeWinProbality_eq env2 h2 c d hcd]
  simp only [Bool.false_eq_true, if_false]
  have d1 := div_le_div_of_nonneg_right htop (by norm_num : (0 : ℚ) ≤ 1225)
  have d2 := div_le_div_of_nonneg_right hlow (by norm_num : (0 : ℚ) ≤ 1225)
  have d3 : (1 : ℚ) / 1225 < 7 / 1225 := by norm_num
  linarith

/-! ## The program over another scorer -/

theorem with_comboScore (env : Env) (c1 c2 : Card) (includeTies : Bool) :
    computeWinProbalityWith comboScore env c1 c2 includeTies =
      computeWinProbality env c1 c2 includeTies := rfl

theorem has_map_entryWith (sc : Card → Card → ℚ) (g : List (Card × Card)) (x y : Card) :
    Combos.has (g.map (entryWith sc)) (x.String ++ y.String) = true ↔ (x, y) ∈ g := by
  unfold Combos.has
  rw [List.any_eq_true]
  constructor
  · rintro ⟨e, he, hk⟩
    obtain ⟨p, hp, rfl⟩ := List.mem_map.1 he
    obtain ⟨h1, h2⟩ := key_inj (beq_iff_eq.1 hk)
    have : p = (x, y) := Prod.ext h1 h2
    exact this ▸ hp
  · intro h
    exact ⟨entryWith sc (x, y), List.mem_map_of_mem _ h, beq_iff_eq.2 rfl⟩

theorem innerStepWith_map (sc : Card → Card → ℚ) (card1 card2 : Card) (g : List (Card × Card)) :
    innerStepWith sc card1 (g.map (entryWith sc)) card2 =
      (pairStep card1 g card2).map (entryWith sc) := by
  unfold innerStepWith pairStep
  by_cases h : card1 = card2
  · have h2 : card1.Rank = card2.Rank ∧ card1.Suit = card2.Suit := (Card.same_iff _ _).2 h
    rw [if_pos h2, if_pos h]
  · have h2 : ¬ (card1.Rank = card2.Rank ∧ card1.Suit = card2.Suit) :=
      fun hh => h ((Card.same_iff _ _).1 hh)
    rw [if_neg h2, if_neg h]
    by_cases h12 : (card1, card2) ∈ g
    · rw [if_pos ((has_map_entryWith sc g card1 card2).2 h12), if_pos h12]
    · have e12 : ¬ Combos.has (g.map (entryWith sc)) (card1.String ++ card2.String) = true :=
        fun hh => h12 ((has_map_entryWith sc g card1 card2).1 hh)
      rw [if_neg e12, if_neg h12]
      by_cases h21 : (card2, card1) ∈ g
      · rw [if_pos ((has_map_entryWith sc g card2 card1).2 h21), if_pos h21]
      · have e21 : ¬ Combos.has (g.map (entryWith sc)) (card2.String ++ card1.String) = true :=
          fun hh => h21 ((has_map_entryWith sc g card2 card1).1 hh)
        rw [if_neg e21, if_neg h21]
        unfold Combos.set
        rw [if_neg e12, List.map_append]
        rfl

theorem inner_fold_mapWith (sc : Card → Card → ℚ) (card1 : Card) (l : List Card)
    (g : List (Card × Card)) :
    l.foldl (innerStepWith sc card1) (g.map (entryWith sc)) =
      (l.foldl (pairStep card1) g).map (entryWith sc) := by
  induction l generalizing g with
  | nil => rfl
  | cons c l ih => rw [List.foldl_cons, List.foldl_cons, innerStepWith_map, ih]

theorem outer_fold_mapWith (sc : Card → Card → ℚ) (env : Env) (l : List (Nat × Card))
    (g : List (Card × Card)) :
    l.foldl (outerStepWith sc env) (g.map (entryWith sc)) =
      (l.foldl (fun g ic => (env.newDeck (ic.1 + 1)).foldl (pairStep ic.2) g) g).map
        (entryWith sc) := by
  induction l generalizing g with
  | nil => rfl
  | cons c l ih =>
    rw [List.foldl_cons, List.foldl_cons]
    unfold outerStepWith at ih ⊢
    rw [inner_fold_mapWith, ih]

theorem buildCombosWith_eq (sc : Card → Card → ℚ) (env : Env) :
    buildCombosWith sc env = (buildPairs env).map (entryWith sc) :=
  outer_fold_mapWith sc env _ []

theorem get_map_entryWith (sc : Card → Card → ℚ) (g : List (Card × Card)) (x y : Card) :
    Combos.get (g.map (entryWith sc)) (x.String ++ y.String) =
      if (x, y) ∈ g then sc x y else 0 := by
  induction g with
  | nil => rfl
  | cons p g ih =>
    unfold Combos.get at ih ⊢
    rw [List.map_cons, List.find?_cons]
    by_cases hp : p = (x, y)
    · subst hp
      simp [entryWith]
    · have hk : ((entryWith sc p).1 == x.String ++ y.String) = false := by
        rw [beq_eq_false_iff_ne]
        intro hk
        exact hp (Prod.ext (key_inj hk).1 (key_inj hk).2)
      rw [hk, ih]
      simp [List.mem_cons, Ne.symm hp]

theorem handScoreWith_eq (sc : Card → Card → ℚ) (hsc : ∀ a b, sc a b = sc b a)
    (g : List (Card × Card)) (hg : PairsOk g) (x y : Card) (hc : Covered g x y) :
    handScore (g.map (entryWith sc)) x y = sc x y := by
  unfold handScore
  simp only [get_map_entryWith]
  rcases hc with h | h
  · rw [if_pos h]
    by_cases h0 : sc x y = 0
    · rw [if_pos h0, h0]
      split_ifs with h2
      · rw [hsc, h0]
      · rfl
    · rw [if_neg h0]
  · have hn : (x, y) ∉ g := by
      intro hxy
      have hnd := hg.1
      have h1 : Sym2.mk (x, y) = Sym2.mk (y, x) := Sym2.eq_swap
      have hne : (x, y) ≠ (y, x) := by
        intro he
        exact hg.2 _ hxy (Prod.mk.inj he).1
      exact hne (List.inj_on_of_nodup_map hnd hxy h h1)
    rw [if_neg hn, if_pos rfl, if_pos h, hsc]

theorem countsWith_eq (sc : Card → Card → ℚ) (hsc : ∀ a b, sc a b = sc b a) (env : Env)
    (hd : ∀ k, (env.newDeck k).Perm fullDeck) (c1 c2 : Card) (P : ℚ → Bool) :
    ((buildCombosWith sc env).countP fun e => !skips c1 c2 e.1 && P e.2) =
      (unorderedPairs (otherCards c1 c2)).countP fun p => P (sc p.1 p.2) := by
  rw [buildCombosWith_eq, List.countP_map, ← countP_sym_eq sc hsc (kept_perm env hd c1 c2) P,
    List.countP_filter]
  congr 1
  funext p
  simp [entryWith, Bool.and_comm]

theorem scanWith_eq (sc : Card → Card → ℚ) (hsc : ∀ a b, sc a b = sc b a) (env : Env)
    (henv : env.Valid) (c1 c2 : Card) (h : c1 ≠ c2) :
    scanWith sc env c1 c2 = ⟨betterCountWith sc c1 c2, tiedCountWith sc c1 c2, 1225⟩ := by
  have hs : handScore (buildCombosWith sc env) c1 c2 = sc c1 c2 := by
    rw [buildCombosWith_eq]
    exact handScoreWith_eq sc hsc _ (buildPairs_ok env henv.1) c1 c2
      (buildPairs_covers env henv.1 c1 c2 h)
  unfold scanWith
  simp only [hs, scan_fold, zero_add]
  rw [(henv.2 _).countP_eq, (henv.2 _).countP_eq, (henv.2 _).countP_eq]
  have hb := countsWith_eq sc hsc env henv.1 c1 c2 fun v => decide (v > sc c1 c2)
  have hq := countsWith_eq sc hsc env henv.1 c1 c2 fun v => decide (v = sc c1 c2)
  have hc := countsWith_eq sc hsc env henv.1 c1 c2 fun _ => true
  simp only [Bool.and_true, List.countP_true, others_pairs_length c1 c2 h] at hc
  rw [hb, hq, hc]
  rfl

theorem computeWinProbalityWith_eq (sc : Card → Card → ℚ) (hsc : ∀ a b, sc a b = sc b a)
    (env : Env) (henv : env.Valid) (c1 c2 : Card) (h : c1 ≠ c2) (includeTies : Bool) :
    computeWinProbalityWith sc env c1 c2 includeTies =
      if includeTies then 1 - (betterCountWith sc c1 c2 : ℚ) / 1225
      else 1 - ((betterCountWith sc c1 c2 : ℚ) + (tiedCountWith sc c1 c2 : ℚ)) / 1225 := by
  unfold computeWinProbalityWith
  rw [scanWith_eq sc hsc env henv c1 c2 h]
  cases includeTies <;> simp

/-! ## Rounding halves to even -/

theorem roundEven_half (n : Int) : roundEven ((n : ℚ) / 2) = (roundHalfEven n : ℚ) := by
  have hfl : ⌊(n : ℚ) / 2⌋ = n / 2 := by
    have := Rat.floor_intCast_div_natCast n 2
    simpa using this
  unfold roundEven roundHalfEven
  simp only [hfl]
  have hdm := Int.emod_add_ediv n 2
  have hq : (n : ℚ) = ((n % 2 : Int) : ℚ) + 2 * ((n / 2 : Int) : ℚ) := by exact_mod_cast hdm.symm
  rcases Int.emod_two_eq_zero_or_one n with h0 | h1
  · rw [if_pos h0]
    rw [h0] at hq
    have e : (n : ℚ) / 2 - ((n / 2 : Int) : ℚ) = 0 := by
      rw [hq]
      push_cast
      ring
    rw [e, if_pos (by norm_num)]
  · have h1n : ¬ n % 2 = 0 := by omega
    rw [if_neg h1n]
    rw [h1] at hq
    have e : (n : ℚ) / 2 - ((n / 2 : Int) : ℚ) = 1 / 2 := by
      rw [hq]
      push_cast
      ring
    rw [e, if_neg (lt_irrefl _), if_neg (lt_irrefl _)]
    split_ifs <;> push_cast <;> rfl

theorem comboScoreEven_eq (a b : Card) :
    comboScoreEven a b =
      (scoreIntEven a.rankIdx b.rankIdx (decide (a.suitIdx = b.suitIdx)) : ℚ) := by
  by_cases h : a.rankIdx = b.rankIdx
  · have e1 : comboScoreEven a b = comboScore a b := by
      unfold comboScoreEven comboScore
      rw [if_pos ((rank_eq_iff a b).2 h), if_pos ((rank_eq_iff a b).2 h)]
    unfold scoreIntEven
    rw [e1, if_pos h, comboScore_eq]
  · have e1 : comboScoreEven a b = roundEven (rawScore a b) := by
      unfold comboScoreEven
      rw [if_neg (fun hh => h ((rank_eq_iff a b).1 hh))]
    unfold scoreIntEven
    rw [e1, if_neg h, rawScore_eq, roundEven_half]

theorem scoreIntEven_comm : ∀ (r1 r2 : Fin 13) (s : Bool),
    scoreIntEven r1 r2 s = scoreIntEven r2 r1 s := by
  decide

theorem comboScoreEven_comm (a b : Card) : comboScoreEven a b = comboScoreEven b a := by
  rw [comboScoreEven_eq, comboScoreEven_eq, scoreIntEven_comm]
  have e : decide (a.suitIdx = b.suitIdx) = decide (b.suitIdx = a.suitIdx) :=
    decide_eq_decide.2 eq_comm
  rw [e]

theorem scoreIntEven_above_six : ∀ (r1 r2 : Fin 13) (s : Bool),
    6 < scoreIntEven r1 r2 s → 6 < scoreInt r1 r2 s := by
  decide

theorem scoreIntEven_high : ∀ (r1 r2 : Fin 13) (s : Bool),
    8 ≤ scoreInt r1 r2 s ∨ 8 ≤ scoreIntEven r1 r2 s → scoreIntEven r1 r2 s = scoreInt r1 r2 s := by
  decide

theorem comboScoreEven_above_six (a b : Card) (h : 6 < comboScoreEven a b) :
    6 < comboScore a b := by
  rw [comboScoreEven_eq] at h
  rw [comboScore_eq]
  have h2 : 6 < scoreIntEven a.rankIdx b.rankIdx (decide (a.suitIdx = b.suitIdx)) := by
    exact_mod_cast h
  exact_mod_cast scoreIntEven_above_six _ _ _ h2

theorem comboScoreEven_high (a b : Card) (h : 8 ≤ comboScore a b ∨ 8 ≤ comboScoreEven a b) :
    comboScoreEven a b = comboScore a b := by
  rw [comboScoreEven_eq, comboScore_eq] at *
  have h2 : 8 ≤ scoreInt a.rankIdx b.rankIdx (decide (a.suitIdx = b.suitIdx)) ∨
      8 ≤ scoreIntEven a.rankIdx b.rankIdx (decide (a.suitIdx = b.suitIdx)) := by
    rcases h with h | h
    · left
      exact_mod_cast h
    · right
      exact_mod_cast h
  rw [scoreIntEven_high _ _ _ h2]

theorem countP_lt_of {α : Type} (l : List α) (p q : α → Bool)
    (hpq : ∀ x ∈ l, p x = true → q x = true) (z : α) (hz : z ∈ l) (hq : q z = true)
    (hp : p z = false) : l.countP p < l.countP q := by
  induction l with
  | nil => exact absurd hz (List.not_mem_nil z)
  | cons x xs ih =>
    have hmono : xs.countP p ≤ xs.countP q :=
      List.countP_mono_left fun y hy => hpq y (List.mem_cons_of_mem _ hy)
    rw [List.countP_cons, List.countP_cons]
    rcases List.mem_cons.1 hz with h | h
    · subst h
      rw [hq, hp]
      simp only [if_true, Bool.false_eq_true, if_false]
      omega
    · have ih2 := ih (fun y hy => hpq y (List.mem_cons_of_mem _ hy)) h
      have hx := hpq x (List.mem_cons_self _ _)
      cases hpx : p x
      · simp only [Bool.false_eq_true, if_false]
        omega
      · rw [hx hpx]
        simp only [if_true]
        omega

/-- A hand that scores 6 under both roundings has fewer better hands under
rounding to even as soon as one hand of the other cards scores more than 6 only
under `math.Round`. -/
theorem even_fewer_better (a b x y : Card) (hxy : x ≠ y)
    (hx : x ≠ a ∧ x ≠ b) (hy : y ≠ a ∧ y ≠ b) (hs : comboScore a b = 6)
    (hse : comboScoreEven a b = 6) (hA : 6 < comboScore x y) (hE : ¬ 6 < comboScoreEven x y) :
    betterCountWith comboScoreEven a b < betterCount a b := by
  unfold betterCountWith betterCount
  rw [hs, hse]
  have hcov := unorderedPairs_covers ((mem_otherCards a b x).2 hx) ((mem_otherCards a b y).2 hy)
    hxy
  have hpq : ∀ p ∈ unorderedPairs (otherCards a b),
      decide (comboScoreEven p.1 p.2 > 6) = true → decide (comboScore p.1 p.2 > 6) = true := by
    intro p _ h
    exact decide_eq_true (comboScoreEven_above_six _ _ (of_decide_eq_true h))
  rcases hcov with h | h
  · exact countP_lt_of _ _ _ hpq (x, y) h (decide_eq_true hA) (decide_eq_false hE)
  · refine countP_lt_of _ _ _ hpq (y, x) h (decide_eq_true ?_) (decide_eq_false ?_)
    · show 6 < comboScore y x
      rw [comboScore_comm]
      exact hA
    · show ¬ 6 < comboScoreEven y x
      rw [comboScoreEven_comm]
      exact hE

theorem even_raises_probability (env : Env) (henv : env.Valid) (a b x y : Card) (hab : a ≠ b)
    (hxy : x ≠ y) (hx : x ≠ a ∧ x ≠ b) (hy : y ≠ a ∧ y ≠ b) (hs : comboScore a b = 6)
    (hse : comboScoreEven a b = 6) (hA : 6 < comboScore x y) (hE : ¬ 6 < comboScoreEven x y) :
    computeWinProbality env a b true < computeWinProbalityWith comboScoreEven env a b true := by
  rw [computeWinProbality_eq env henv a b hab,
    computeWinProbalityWith_eq comboScoreEven comboScoreEven_comm env henv a b hab]
  simp only [if_true]
  have h := even_fewer_better a b x y hxy hx hy hs hse hA hE
  have hq : (betterCountWith comboScoreEven a b : ℚ) < (betterCount a b : ℚ) := by
    exact_mod_cast h
  have := div_lt_div_of_pos_right hq (by norm_num : (0 : ℚ) < 1225)
  linarith

theorem even_counts_high (a b : Card) (hs : 8 ≤ comboScore a b) :
    betterCountWith comboScoreEven a b = betterCount a b ∧
      tiedCountWith comboScoreEven a b = tiedCount a b := by
  have he := comboScoreEven_high a b (Or.inl hs)
  unfold betterCountWith betterCount tiedCountWith tiedCount
  rw [he]
  constructor
  · refine List.countP_congr fun p _ => ?_
    rw [decide_eq_true_iff, decide_eq_true_iff]
    constructor
    · intro h
      rw [← comboScoreEven_high p.1 p.2 (Or.inr (hs.trans h.le))]
      exact h
    · intro h
      rw [comboScoreEven_high p.1 p.2 (Or.inl (hs.trans h.le))]
      exact h
  · refine List.countP_congr fun p _ => ?_
    rw [decide_eq_true_iff, decide_eq_true_iff]
    constructor
    · intro h
      rw [← comboScoreEven_high p.1 p.2 (Or.inr (hs.trans h.ge))]
      exact h
    · intro h
      rw [comboScoreEven_high p.1 p.2 (Or.inl (hs.trans h.ge))]
      exact h

/-! # The claims -/

/-- C1: for distinct deck cards `c1`, `c2`, whatever the shuffles and the order of
`range`, `computeWinProbality(c1, c2, false)` is `1 - (better + tied) / 1225` and
`computeWinProbality(c1, c2, true)` is `1 - better / 1225`, where `better` and
`tied` count the unordered pairs of distinct cards among the 50 cards other than
`c1`, `c2` that score strictly more than, respectively exactly as much as, the
hand. -/
theorem computeWinProbality_formula (env : Env) (henv : env.Valid) (c1 c2 : Card)
    (h : c1 ≠ c2) :
    (otherCards c1 c2).length = 50 ∧
    computeWinProbality env c1 c2 false =
      1 - ((betterCount c1 c2 : ℚ) + (tiedCount c1 c2 : ℚ)) / 1225 ∧
    computeWinProbality env c1 c2 true = 1 - (betterCount c1 c2 : ℚ) / 1225 := by
  refine ⟨otherCards_length c1 c2 h, ?_, ?_⟩
  · rw [computeWinProbality_eq env henv c1 c2 h]
    rfl
  · rw [computeWinProbality_eq env henv c1 c2 h]
    rfl

theorem computeWinProbality_formula_witness :
    Env.rotated.Valid ∧ (Card.mk 12 0) ≠ (Card.mk 12 1) ∧
    ((otherCards (Card.mk 12 0) (Card.mk 12 1)).length = 50 ∧
    computeWinProbality Env.rotated (Card.mk 12 0) (Card.mk 12 1) false =
      1 - ((betterCount (Card.mk 12 0) (Card.mk 12 1) : ℚ) +
        (tiedCount (Card.mk 12 0) (Card.mk 12 1) : ℚ)) / 1225 ∧
    computeWinProbality Env.rotated (Card.mk 12 0) (Card.mk 12 1) true =
      1 - (betterCount (Card.mk 12 0) (Card.mk 12 1) : ℚ) / 1225) :=
  ⟨Env.rotated_valid, by decide,
    computeWinProbality_formula Env.rotated Env.rotated_valid _ _ (by decide)⟩

/-- C2: for distinct deck cards `c1`, `c2` the scan skips exactly the entries whose
key contains `c1` or `c2`, in either position, and the local `counted` ends at
1225, the constant divisor, which is the number of two-card hands from 50 cards. -/
theorem scan_skips_and_counts (env : Env) (henv : env.Valid) (c1 c2 : Card) (h : c1 ≠ c2) :
    (∀ e ∈ buildCombos env, ∃ x y : Card, e.1 = x.String ++ y.String ∧
      (skips c1 c2 e.1 = true ↔ (x = c1 ∨ x = c2 ∨ y = c1 ∨ y = c2))) ∧
    (scan env c1 c2).counted = 1225 ∧ (1225 : Int) = Nat.choose 50 2 := by
  refine ⟨?_, ?_, by decide⟩
  · intro e he
    rw [buildCombos_eq] at he
    obtain ⟨p, _, rfl⟩ := List.mem_map.1 he
    refine ⟨p.1, p.2, rfl, ?_⟩
    show skips c1 c2 (p.1.String ++ p.2.String) = true ↔ _
    rw [skips_key]
    tauto
  · rw [scan_eq env henv c1 c2 h]

theorem scan_skips_and_counts_witness :
    Env.plain.Valid ∧ (Card.mk 12 0) ≠ (Card.mk 12 1) ∧
    ((∀ e ∈ buildCombos Env.plain, ∃ x y : Card, e.1 = x.String ++ y.String ∧
      (skips (Card.mk 12 0) (Card.mk 12 1) e.1 = true ↔
        (x = Card.mk 12 0 ∨ x = Card.mk 12 1 ∨ y = Card.mk 12 0 ∨ y = Card.mk 12 1))) ∧
    (scan Env.plain (Card.mk 12 0) (Card.mk 12 1)).counted = 1225 ∧
    (1225 : Int) = Nat.choose 50 2) :=
  ⟨Env.plain_valid, by decide,
    scan_skips_and_counts Env.plain Env.plain_valid _ _ (by decide)⟩

/-- C3: for distinct deck cards and both values of `includeTies` the returned value
lies in `[0, 1]`; in particular `printGrid` has 13 rows of 13 cells, every cell
evaluates two distinct cards, and the probability of every cell lies in `[0, 1]`. -/
theorem computeWinProbality_bounds (env : Env) (henv : env.Valid) (c1 c2 : Card)
    (h : c1 ≠ c2) (includeTies : Bool) (envs : Nat → Env) (henvs : ∀ k, (envs k).Valid)
    (position : String) :
    (0 ≤ computeWinProbality env c1 c2 includeTies ∧
      computeWinProbality env c1 c2 includeTies ≤ 1) ∧
    (printGrid envs position includeTies).map List.length = List.replicate 13 13 ∧
    ∀ row ∈ printGrid envs position includeTies, ∀ c ∈ row,
      ∃ cell : Cell, c = some cell ∧ cell.hand.1 ≠ cell.hand.2 ∧
        (∃ k, cell.prob = computeWinProbality (envs k) cell.hand.1 cell.hand.2 includeTies) ∧
        0 ≤ cell.prob ∧ cell.prob ≤ 1 := by
  refine ⟨prob_bounds env henv c1 c2 h includeTies, ?_, ?_⟩
  · rw [printGrid_eq]
    rfl
  · intro row hrow c hc
    obtain ⟨i, j, rfl⟩ := mem_printGrid envs position includeTies row hrow c hc
    refine ⟨_, rfl, gridHand_distinct i j, ⟨13 * i.val + j.val, rfl⟩, ?_⟩
    exact prob_bounds (envs _) (henvs _) _ _ (gridHand_distinct i j) includeTies

theorem computeWinProbality_bounds_witness :
    Env.rotated.Valid ∧ (Card.mk 5 3) ≠ (Card.mk 0 0) ∧ (∀ k : Nat, ((fun _ : Nat => Env.plain) k).Valid) ∧
    (0 ≤ computeWinProbality Env.rotated (Card.mk 5 3) (Card.mk 0 0) false ∧
      computeWinProbality Env.rotated (Card.mk 5 3) (Card.mk 0 0) false ≤ 1) :=
  ⟨Env.rotated_valid, by decide, fun _ => Env.plain_valid,
    (computeWinProbality_bounds Env.rotated Env.rotated_valid (Card.mk 5 3) (Card.mk 0 0)
      (by decide) false (fun _ => Env.plain) (fun _ => Env.plain_valid) "sb").1⟩

/-- C4, evaluated on the code: for the empty position the exponent is 1, but for an
unrecognized label such as "bb" the read of `posMap` yields 0, so the exponent is
0 and every one of the 169 cells shows 100 whatever its probability. -/
theorem unrecognized_position_exponent (envs : Nat → Env) (includeTies : Bool) :
    cellExp "" = 1 ∧ posMap "bb" = 0 ∧ cellExp "bb" = 0 ∧
    (∀ prob : ℚ, cellShown prob (cellExp "bb") = 100) ∧
    cellShown (1 / 2) (cellExp "bb") ≠ 1 / 2 * 100 ∧
    (∀ position : String, position ≠ "" →
      position ∉ ["sb", "d", "co", "hj", "lj", "utg2", "utg1", "utg"] →
      cellExp position = 0) ∧
    ∀ row ∈ printGrid envs "bb" includeTies, ∀ c ∈ row,
      ∃ cell : Cell, c = some cell ∧ cell.exp = 0 ∧ cell.shown = 100 := by
  have h0 : cellExp "bb" = 0 := by decide
  have hs : ∀ prob : ℚ, cellShown prob (cellExp "bb") = 100 := by
    intro prob
    rw [h0]
    unfold cellShown
    rw [zpow_zero, one_mul]
  refine ⟨by decide, by decide, h0, hs, ?_, ?_, ?_⟩
  · rw [hs]
    norm_num
  · intro position hne hnot
    simp only [List.mem_cons, List.mem_singleton, List.mem_nil_iff, or_false, not_or] at hnot
    obtain ⟨n1, n2, n3, n4, n5, n6, n7, n8⟩ := hnot
    unfold cellExp posMap
    simp only [hne, n1, n2, n3, n4, n5, n6, n7, n8, ne_eq, not_false_eq_true, if_true, if_false]
  · intro row hrow c hc
    obtain ⟨i, j, rfl⟩ := mem_printGrid envs "bb" includeTies row hrow c hc
    exact ⟨_, rfl, h0, hs _⟩

/-- C5: the table holds exactly 1326 entries under pairwise different keys; for
every two distinct deck cards exactly one of the two keys is present; and no key
pairs a card with itself. -/
theorem buildCombos_entries (env : Env) (hd : ∀ k, (env.newDeck k).Perm fullDeck) :
    (buildCombos env).length = 1326 ∧
    ((buildCombos env).map Prod.fst).Nodup ∧
    (∀ x y : Card, x ≠ y →
      ((buildCombos env).has (x.String ++ y.String) = true ∨
        (buildCombos env).has (y.String ++ x.String) = true) ∧
      ¬ ((buildCombos env).has (x.String ++ y.String) = true ∧
        (buildCombos env).has (y.String ++ x.String) = true)) ∧
    (∀ x : Card, (buildCombos env).has (x.String ++ x.String) = false) := by
  have hg := buildPairs_ok env hd
  rw [buildCombos_eq]
  refine ⟨?_, ?_, ?_, ?_⟩
  · rw [List.length_map, buildPairs_length env hd]
  · rw [List.map_map]
    have hnd : (buildPairs env).Nodup := List.Nodup.of_map _ hg.1
    refine List.Nodup.map_on ?_ hnd
    intro p _ q _ hpq
    exact Prod.ext (key_inj hpq).1 (key_inj hpq).2
  · intro x y hxy
    rw [has_map_entryOf, has_map_entryOf]
    exact ⟨buildPairs_covers env hd x y hxy, not_both _ hg x y⟩
  · intro x
    rw [Bool.eq_false_iff]
    intro hx
    exact hg.2 _ ((has_map_entryOf _ x x).1 hx) rfl

theorem buildCombos_entries_witness :
    (∀ k, (Env.rotated.newDeck k).Perm fullDeck) ∧
    ((buildCombos Env.rotated).length = 1326 ∧
    ((buildCombos Env.rotated).map Prod.fst).Nodup ∧
    (∀ x y : Card, x ≠ y →
      ((buildCombos Env.rotated).has (x.String ++ y.String) = true ∨
        (buildCombos Env.rotated).has (y.String ++ x.String) = true) ∧
      ¬ ((buildCombos Env.rotated).has (x.String ++ y.String) = true ∧
        (buildCombos Env.rotated).has (y.String ++ x.String) = true)) ∧
    (∀ x : Card, (buildCombos Env.rotated).has (x.String ++ x.String) = false)) :=
  ⟨Env.rotated_valid.1, buildCombos_entries Env.rotated Env.rotated_valid.1⟩

/-- C6: score and probability are symmetric in the two cards: the loop body
stores the same value whichever card is `card1`, the lookup of the built table
yields that value for both orders, and `computeWinProbality` returns the same
number for `(X, Y)` and `(Y, X)`, also across two runs with different shuffles. -/
theorem score_and_probability_symmetric (env env2 : Env) (henv : env.Valid)
    (henv2 : env2.Valid) (x y : Card) (h : x ≠ y) (includeTies : Bool) :
    comboScore x y = comboScore y x ∧
    handScore (buildCombos env) x y = comboScore x y ∧
    handScore (buildCombos env) y x = comboScore x y ∧
    computeWinProbality env x y includeTies = computeWinProbality env2 y x includeTies := by
  have hg := buildPairs_ok env henv.1
  refine ⟨comboScore_comm x y, ?_, ?_, ?_⟩
  · rw [buildCombos_eq]
    exact handScore_eq _ hg x y (buildPairs_covers env henv.1 x y h)
  · rw [buildCombos_eq, comboScore_comm x y]
    exact handScore_eq _ hg y x (buildPairs_covers env henv.1 y x (Ne.symm h))
  · rw [computeWinProbality_eq env henv x y h, computeWinProbality_eq env2 henv2 y x (Ne.symm h),
      betterCount_comm x y, tiedCount_comm x y]

theorem score_and_probability_symmetric_witness :
    Env.plain.Valid ∧ Env.rotated.Valid ∧ (Card.mk 5 3) ≠ (Card.mk 0 0) ∧
    (comboScore (Card.mk 5 3) (Card.mk 0 0) = comboScore (Card.mk 0 0) (Card.mk 5 3) ∧
    handScore (buildCombos Env.plain) (Card.mk 5 3) (Card.mk 0 0) =
      comboScore (Card.mk 5 3) (Card.mk 0 0) ∧
    handScore (buildCombos Env.plain) (Card.mk 0 0) (Card.mk 5 3) =
      comboScore (Card.mk 5 3) (Card.mk 0 0) ∧
    computeWinProbality Env.plain (Card.mk 5 3) (Card.mk 0 0) true =
      computeWinProbality Env.rotated (Card.mk 0 0) (Card.mk 5 3) true) :=
  ⟨Env.plain_valid, Env.rotated_valid, by decide,
    score_and_probability_symmetric Env.plain Env.rotated Env.plain_valid Env.rotated_valid
      _ _ (by decide) true⟩

/-- C7: the value returned does not depend on the shuffles: any two runs, whatever
order each `poker.NewDeck()` hands out its cards in (and whatever order `range`
visits the table in), return the same number for the same distinct cards and
flag. -/
theorem computeWinProbality_deterministic (env env2 : Env) (henv : env.Valid)
    (henv2 : env2.Valid) (c1 c2 : Card) (h : c1 ≠ c2) (includeTies : Bool) :
    computeWinProbality env c1 c2 includeTies = computeWinProbality env2 c1 c2 includeTies := by
  rw [computeWinProbality_eq env henv c1 c2 h, computeWinProbality_eq env2 henv2 c1 c2 h]

theorem computeWinProbality_deterministic_witness :
    Env.plain.Valid ∧ Env.rotated.Valid ∧ (Card.mk 8 3) ≠ (Card.mk 9 3) ∧
    computeWinProbality Env.plain (Card.mk 8 3) (Card.mk 9 3) false =
      computeWinProbality Env.rotated (Card.mk 8 3) (Card.mk 9 3) false :=
  ⟨Env.plain_valid, Env.rotated_valid, by decide,
    computeWinProbality_deterministic Env.plain Env.rotated Env.plain_valid Env.rotated_valid
      _ _ (by decide) false⟩

/-- C8: two cards of equal rank and different suits are stored with the score
`max(5, 2 * rankPoints[r])` and nothing else: the table has an entry for the pair,
every entry under either key carries that value, a pair of Twos scores 5 and a
pair of Aces 20. -/
theorem pair_score (env : Env) (hd : ∀ k, (env.newDeck k).Perm fullDeck) (x y : Card)
    (hr : x.rankIdx = y.rankIdx) (hs : x.suitIdx ≠ y.suitIdx) :
    comboScore x y = max 5 (2 * rankPoints (strRanks.getD x.rankIdx.val '2')) ∧
    (∃ e ∈ buildCombos env, e.1 = x.String ++ y.String ∨ e.1 = y.String ++ x.String) ∧
    (∀ e ∈ buildCombos env, (e.1 = x.String ++ y.String ∨ e.1 = y.String ++ x.String) →
      e.2 = max 5 (2 * rankPoints (strRanks.getD x.rankIdx.val '2'))) ∧
    (x.String.getD 0 '2' = '2' → comboScore x y = 5) ∧
    (x.String.getD 0 '2' = 'A' → comboScore x y = 20) := by
  have hxy : x ≠ y := fun e => hs (e ▸ rfl)
  have hp := pair_comboScore x y hr
  refine ⟨hp, entry_exists env hd x y hxy, ?_, ?_, ?_⟩
  · intro e he hk
    rw [entry_score env x y e he hk, hp]
  · intro h2
    have h3 : strRanks.getD x.rankIdx.val '2' = '2' := h2
    rw [hp, h3]
    simp +decide only [rankPoints, if_true, if_false]
    norm_num
  · intro h2
    have h3 : strRanks.getD x.rankIdx.val '2' = 'A' := h2
    rw [hp, h3]
    simp +decide only [rankPoints, if_true, if_false]
    norm_num

theorem pair_score_witness :
    (∀ k, (Env.rotated.newDeck k).Perm fullDeck) ∧
    (Card.mk 0 3).rankIdx = (Card.mk 0 0).rankIdx ∧
    (Card.mk 0 3).suitIdx ≠ (Card.mk 0 0).suitIdx ∧
    (comboScore (Card.mk 0 3) (Card.mk 0 0) =
      max 5 (2 * rankPoints (strRanks.getD (Card.mk 0 3).rankIdx.val '2')) ∧
    (∃ e ∈ buildCombos Env.rotated, e.1 = (Card.mk 0 3).String ++ (Card.mk 0 0).String ∨
      e.1 = (Card.mk 0 0).String ++ (Card.mk 0 3).String) ∧
    (∀ e ∈ buildCombos Env.rotated, (e.1 = (Card.mk 0 3).String ++ (Card.mk 0 0).String ∨
      e.1 = (Card.mk 0 0).String ++ (Card.mk 0 3).String) →
      e.2 = max 5 (2 * rankPoints (strRanks.getD (Card.mk 0 3).rankIdx.val '2'))) ∧
    ((Card.mk 0 3).String.getD 0 '2' = '2' → comboScore (Card.mk 0 3) (Card.mk 0 0) = 5) ∧
    ((Card.mk 0 3).String.getD 0 '2' = 'A' → comboScore (Card.mk 0 3) (Card.mk 0 0) = 20)) :=
  ⟨Env.rotated_valid.1, rfl, by decide,
    pair_score Env.rotated Env.rotated_valid.1 _ _ rfl (by decide)⟩

/-- C9 fails as stated: Ten-Jack does receive the connector bonus, since the
library ranks of Ten and Jack are 8 and 9, both below 10: offsuit it scores 7 and
suited 9, not 6 and 8. -/
theorem tenJack_receives_bonus :
    (Card.mk 8 3).String = ['T', 'c'] ∧ (Card.mk 9 0).String = ['J', 's'] ∧
    (Card.mk 9 3).String = ['J', 'c'] ∧
    (Card.mk 8 3).Rank = 8 ∧ (Card.mk 9 0).Rank = 9 ∧
    comboScore (Card.mk 8 3) (Card.mk 9 0) = 7 ∧
    comboScore (Card.mk 8 3) (Card.mk 9 3) = 9 ∧
    ¬ (comboScore (Card.mk 8 3) (Card.mk 9 0) = 6 ∧ comboScore (Card.mk 8 3) (Card.mk 9 3) = 8) := by
  have h1 : comboScore (Card.mk 8 3) (Card.mk 9 0) = 7 := by
    rw [scoreInt_eval _ _ 7 (by decide)]
    norm_num
  have h2 : comboScore (Card.mk 8 3) (Card.mk 9 3) = 9 := by
    rw [scoreInt_eval _ _ 9 (by decide)]
    norm_num
  refine ⟨rfl, rfl, rfl, rfl, rfl, h1, h2, ?_⟩
  rw [h1]
  norm_num

/-- C9, amended: for a non-pair hand the stored score is the rounding of the
higher point value, plus 2 when suited, minus the gap penalty, plus a connector
bonus of 1 exactly when the gap penalty is below 2 and neither card is a Queen,
King or Ace (the library ranks below 10 are Two to Jack).  So 6-7 scores 5
offsuit and 7 suited, and Ten-Jack, bonus included, 7 offsuit and 9 suited. -/
theorem connector_bonus (x y : Card) (h : x.rankIdx ≠ y.rankIdx) :
    comboScore x y = mathRound (rawScore x y) ∧
    rawScore x y =
      max (rankPoints (x.String.getD 0 '2')) (rankPoints (y.String.getD 0 '2'))
        + (if x.Suit = y.Suit then 2 else 0) - gapPenalty x.Rank y.Rank
        + (if gapPenalty x.Rank y.Rank < 2 ∧ x.String.getD 0 '2' ∉ ['Q', 'K', 'A'] ∧
            y.String.getD 0 '2' ∉ ['Q', 'K', 'A'] then 1 else 0) ∧
    comboScore (Card.mk 4 3) (Card.mk 5 0) = mathRound (3.5 + 1) ∧
    comboScore (Card.mk 4 3) (Card.mk 5 3) = mathRound (3.5 + 2 + 1) ∧
    comboScore (Card.mk 4 3) (Card.mk 5 0) = 5 ∧
    comboScore (Card.mk 4 3) (Card.mk 5 3) = 7 ∧
    comboScore (Card.mk 8 3) (Card.mk 9 0) = mathRound (6 + 1) ∧
    comboScore (Card.mk 8 3) (Card.mk 9 3) = mathRound (6 + 2 + 1) ∧
    comboScore (Card.mk 8 3) (Card.mk 9 0) = 7 ∧
    comboScore (Card.mk 8 3) (Card.mk 9 3) = 9 := by
  have e1 : comboScore (Card.mk 4 3) (Card.mk 5 0) = 5 := by
    rw [scoreInt_eval _ _ 5 (by decide)]
    norm_num
  have e2 : comboScore (Card.mk 4 3) (Card.mk 5 3) = 7 := by
    rw [scoreInt_eval _ _ 7 (by decide)]
    norm_num
  have e3 : comboScore (Card.mk 8 3) (Card.mk 9 0) = 7 := by
    rw [scoreInt_eval _ _ 7 (by decide)]
    norm_num
  have e4 : comboScore (Card.mk 8 3) (Card.mk 9 3) = 9 := by
    rw [scoreInt_eval _ _ 9 (by decide)]
    norm_num
  refine ⟨?_, ?_, ?_, ?_, e1, e2, ?_, ?_, e3, e4⟩
  · unfold comboScore
    simp only
    rw [if_neg (fun hh => h ((rank_eq_iff x y).1 hh))]
  · unfold rawScore
    simp only [if_gt_eq_max, rank_lt_ten_iff]
    split_ifs <;> ring
  · rw [e1]
    unfold mathRound
    norm_num
  · rw [e2]
    unfold mathRound
    norm_num
  · rw [e3]
    unfold mathRound
    norm_num
  · rw [e4]
    unfold mathRound
    norm_num

theorem connector_bonus_witness :
    (Card.mk 8 3).rankIdx ≠ (Card.mk 9 0).rankIdx ∧
    comboScore (Card.mk 8 3) (Card.mk 9 0) = mathRound (rawScore (Card.mk 8 3) (Card.mk 9 0)) :=
  ⟨by decide, (connector_bonus (Card.mk 8 3) (Card.mk 9 0) (by decide)).1⟩

/-- C10 fails as stated: suited Seven-Two scores 1 and offsuit Seven-Two scores -2, a
difference of 3: the score before rounding is 0.5 suited and -1.5 offsuit, and
`math.Round` rounds both halves away from zero. -/
theorem sevenTwo_suited_minus_offsuit :
    (Card.mk 5 3).String = ['7', 'c'] ∧ (Card.mk 0 3).String = ['2', 'c'] ∧
    (Card.mk 0 0).String = ['2', 's'] ∧
    comboScore (Card.mk 5 3) (Card.mk 0 3) = 1 ∧
    comboScore (Card.mk 5 3) (Card.mk 0 0) = -2 ∧
    comboScore (Card.mk 5 3) (Card.mk 0 3) ≠ comboScore (Card.mk 5 3) (Card.mk 0 0) + 2 := by
  have h1 : comboScore (Card.mk 5 3) (Card.mk 0 3) = 1 := by
    rw [scoreInt_eval _ _ 1 (by decide)]
    norm_num
  have h2 : comboScore (Card.mk 5 3) (Card.mk 0 0) = -2 := by
    rw [scoreInt_eval _ _ (-2) (by decide)]
    norm_num
  refine ⟨rfl, rfl, rfl, h1, h2, ?_⟩
  rw [h1, h2]
  norm_num

/-- C10, amended: for two distinct ranks the suited score before rounding is the
offsuit one plus 2, and the rounded suited score is the rounded offsuit score
plus 2, except where the offsuit score before rounding is -1/2 or -3/2, that is
for the ranks 9-4, 9-3, 9-2, 7-3 and 7-2, where it is the offsuit score plus 3. -/
theorem suited_bonus (a b c d : Card) (hac : a.rankIdx = c.rankIdx)
    (hbd : b.rankIdx = d.rankIdx) (hne : a.rankIdx ≠ b.rankIdx)
    (hs : a.suitIdx = b.suitIdx) (ho : c.suitIdx ≠ d.suitIdx) :
    rawScore a b = rawScore c d + 2 ∧
    comboScore a b = comboScore c d +
      (if rawScore c d = -1 / 2 ∨ rawScore c d = -3 / 2 then 3 else 2) ∧
    ((rawScore c d = -1 / 2 ∨ rawScore c d = -3 / 2) ↔
      (c.String.getD 0 '2', d.String.getD 0 '2') ∈
        [('9', '4'), ('9', '3'), ('9', '2'), ('7', '3'), ('7', '2'),
         ('4', '9'), ('3', '9'), ('2', '9'), ('3', '7'), ('2', '7')]) := by
  have hcd : c.rankIdx ≠ d.rankIdx := by
    rw [← hac, ← hbd]
    exact hne
  have hab : decide (a.suitIdx = b.suitIdx) = true := decide_eq_true hs
  have hcd2 : decide (c.suitIdx = d.suitIdx) = false := decide_eq_false ho
  have hr : ∀ z : Int, (rawScore c d = (z : ℚ) / 2) ↔ raw2 c.rankIdx d.rankIdx false = z := by
    intro z
    rw [rawScore_eq, hcd2]
    constructor
    · intro h
      have : (raw2 c.rankIdx d.rankIdx false : ℚ) = z := by linarith
      exact_mod_cast this
    · intro h
      rw [h]
  have hr1 : (rawScore c d = -1 / 2) ↔ raw2 c.rankIdx d.rankIdx false = -1 := by
    have := hr (-1)
    push_cast at this
    exact this
  have hr3 : (rawScore c d = -3 / 2) ↔ raw2 c.rankIdx d.rankIdx false = -3 := by
    have := hr (-3)
    push_cast at this
    exact this
  refine ⟨?_, ?_, ?_⟩
  · rw [rawScore_eq, rawScore_eq, hab, hcd2, hac, hbd, raw2_suited]
    push_cast
    ring
  · rw [comboScore_eq, comboScore_eq, hab, hcd2, hac, hbd, scoreInt_suited _ _ hcd]
    simp only [hr1, hr3]
    push_cast
    split_ifs <;> rfl
  · rw [hr1, hr3]
    exact half_raw_iff _ _ hcd

theorem suited_bonus_witness :
    (Card.mk 5 3).rankIdx = (Card.mk 5 3).rankIdx ∧
    (Card.mk 0 3).rankIdx = (Card.mk 0 0).rankIdx ∧
    (Card.mk 5 3).rankIdx ≠ (Card.mk 0 3).rankIdx ∧
    (Card.mk 5 3).suitIdx = (Card.mk 0 3).suitIdx ∧
    (Card.mk 5 3).suitIdx ≠ (Card.mk 0 0).suitIdx ∧
    rawScore (Card.mk 5 3) (Card.mk 0 3) = rawScore (Card.mk 5 3) (Card.mk 0 0) + 2 ∧
    comboScore (Card.mk 5 3) (Card.mk 0 3) = comboScore (Card.mk 5 3) (Card.mk 0 0) +
      (if rawScore (Card.mk 5 3) (Card.mk 0 0) = -1 / 2 ∨
        rawScore (Card.mk 5 3) (Card.mk 0 0) = -3 / 2 then 3 else 2) :=
  ⟨rfl, rfl, by decide, rfl, by decide,
    (suited_bonus (Card.mk 5 3) (Card.mk 0 3) (Card.mk 5 3) (Card.mk 0 0) rfl rfl (by decide) rfl
      (by decide)).1,
    (suited_bonus (Card.mk 5 3) (Card.mk 0 3) (Card.mk 5 3) (Card.mk 0 0) rfl rfl (by decide) rfl
      (by decide)).2.1⟩

/-- C11: for two non-pair hands with the same higher point value and the same
suitedness, neither receiving the connector bonus, the hand with the smaller gap
(capped at 4) has the strictly greater rounded score, and two such hands with
gaps of 4 or more score the same. -/
theorem gap_monotonicity (a b c d : Card) (hab : a.rankIdx ≠ b.rankIdx)
    (hcd : c.rankIdx ≠ d.rankIdx) (hp : highPoints a b = highPoints c d)
    (hs : a.suitIdx = b.suitIdx ↔ c.suitIdx = d.suitIdx)
    (hna : ¬ getsConnector a b) (hnc : ¬ getsConnector c d) :
    (min (rankGap a b) 4 < min (rankGap c d) 4 → comboScore c d < comboScore a b) ∧
    (4 ≤ rankGap a b → 4 ≤ rankGap c d → comboScore a b = comboScore c d) := by
  have e1 : comboScore a b = mathRound (rawScore a b) := by
    unfold comboScore
    simp only
    rw [if_neg (fun hh => hab ((rank_eq_iff a b).1 hh))]
  have e2 : comboScore c d = mathRound (rawScore c d) := by
    unfold comboScore
    simp only
    rw [if_neg (fun hh => hcd ((rank_eq_iff c d).1 hh))]
  have hsuit : (if a.Suit = b.Suit then (2 : ℚ) else 0) = if c.Suit = d.Suit then 2 else 0 := by
    simp only [suit_eq_iff, hs]
  rw [e1, e2, rawScore_no_connector a b hna, rawScore_no_connector c d hnc, hp, hsuit,
    gapPenalty_cast, gapPenalty_cast]
  constructor
  · intro h
    have hstep := gapInt_step a.Rank b.Rank c.Rank d.Rank h (rankGap_nonneg a b hab)
    have hq : (gapInt a.Rank b.Rank : ℚ) + 1 ≤ (gapInt c.Rank d.Rank : ℚ) := by
      exact_mod_cast hstep
    apply mathRound_lt
    linarith
  · intro h1 h2
    rw [gapInt_far a.Rank b.Rank h1, gapInt_far c.Rank d.Rank h2]

theorem gap_monotonicity_witness :
    (Card.mk 11 3).rankIdx ≠ (Card.mk 10 0).rankIdx ∧
    (Card.mk 11 3).rankIdx ≠ (Card.mk 9 0).rankIdx ∧
    highPoints (Card.mk 11 3) (Card.mk 10 0) = highPoints (Card.mk 11 3) (Card.mk 9 0) ∧
    ¬ getsConnector (Card.mk 11 3) (Card.mk 10 0) ∧
    ¬ getsConnector (Card.mk 11 3) (Card.mk 9 0) ∧
    min (rankGap (Card.mk 11 3) (Card.mk 10 0)) 4 < min (rankGap (Card.mk 11 3) (Card.mk 9 0)) 4 ∧
    comboScore (Card.mk 11 3) (Card.mk 9 0) < comboScore (Card.mk 11 3) (Card.mk 10 0) :=
  have hp : highPoints (Card.mk 11 3) (Card.mk 10 0) = highPoints (Card.mk 11 3) (Card.mk 9 0) := by
    unfold highPoints
    simp +decide [Card.String, strRanks, rankPoints]
  have h1 : ¬ getsConnector (Card.mk 11 3) (Card.mk 10 0) := by
    unfold getsConnector
    simp +decide [Card.Rank]
  have h2 : ¬ getsConnector (Card.mk 11 3) (Card.mk 9 0) := by
    unfold getsConnector
    simp +decide [Card.Rank]
  have hg : min (rankGap (Card.mk 11 3) (Card.mk 10 0)) 4 <
      min (rankGap (Card.mk 11 3) (Card.mk 9 0)) 4 := by
    decide
  ⟨by decide, by decide, hp, h1, h2, hg,
    (gap_monotonicity (Card.mk 11 3) (Card.mk 10 0) (Card.mk 11 3) (Card.mk 9 0) (by decide)
      (by decide) hp (by decide) h1 h2).1 hg⟩

/-- C12: `gapPenalty(r1, r2)` depends only on the gap `max(|r1 - r2| - 1, 0)` and is
0, 1, 2, 4, 5 for the gaps 0, 1, 2, 3 and 4 or more; it is symmetric, and equal
ranks get penalty 0.  (It holds for all integers, in particular for card ranks,
where the `int32` subtraction cannot wrap.) -/
theorem gapPenalty_by_gap (r1 r2 : Int) :
    gapPenalty r1 r2 =
      (if max (|r1 - r2| - 1) 0 = 0 then 0
      else if max (|r1 - r2| - 1) 0 = 1 then 1
      else if max (|r1 - r2| - 1) 0 = 2 then 2
      else if max (|r1 - r2| - 1) 0 = 3 then 4
      else 5) ∧
    gapPenalty r1 r2 = gapPenalty r2 r1 ∧
    gapPenalty r1 r1 = 0 := by
  refine ⟨?_, gapPenalty_comm r1 r2, ?_⟩
  · rw [gapPenalty_cast, gapInt_table]
    split_ifs <;> simp
  · rw [gapPenalty_cast, gapInt_table]
    simp

/-- C13: in the grid printed for "utg" with ties excluded, the first cell of the
first row holds the two Aces (clubs and spades), its exponent is 8, and the
number it shows, `prob ^ 8 * 100`, is strictly greater than the number shown by
each of the other 168 cells (as are the projected values `prob ^ 8`). -/
theorem pocket_aces_top_cell (envs : Nat → Env) (henvs : ∀ k, (envs k).Valid) :
    ∃ top : Cell, cellAt (printGrid envs "utg" false) 0 0 = some top ∧
      top.hand.1.String = ['A', 'c'] ∧ top.hand.2.String = ['A', 's'] ∧
      top.prob = computeWinProbality (envs 0) top.hand.1 top.hand.2 false ∧
      top.exp = 8 ∧ top.shown = top.prob ^ 8 * 100 ∧
      ∀ i j : Fin 13, (i, j) ≠ (0, 0) →
        ∃ c : Cell, cellAt (printGrid envs "utg" false) i.val j.val = some c ∧
          c.shown = c.prob ^ 8 * 100 ∧ c.prob ^ 8 < top.prob ^ 8 ∧ c.shown < top.shown := by
  have hexp : cellExp "utg" = ((8 : Nat) : Int) := by decide
  have hexp8 : cellExp "utg" = 8 := by decide
  refine ⟨_, cellAt_printGrid envs "utg" false 0 0, rfl, rfl, rfl, hexp8,
    cellShown_nat _ "utg" 8 hexp, ?_⟩
  intro i j hij
  refine ⟨_, cellAt_printGrid envs "utg" false i j, cellShown_nat _ "utg" 8 hexp, ?_⟩
  have h0 := (prob_bounds (envs (13 * i.val + j.val)) (henvs _) _ _ (gridHand_distinct i j)
    false).1
  have hlt := top_score_prob_lt (envs (13 * (0 : Fin 13).val + (0 : Fin 13).val))
    (envs (13 * i.val + j.val)) (henvs _) (henvs _) _ _ _ _
    (gridHand_distinct 0 0) (gridHand_distinct i j) gridHand_scores.1 (gridHand_scores.2 i j hij)
  have hpow := pow_lt_pow_left₀ hlt h0 (by norm_num : (8 : Nat) ≠ 0)
  refine ⟨hpow, ?_⟩
  show cellShown _ (cellExp "utg") < cellShown _ (cellExp "utg")
  rw [cellShown_nat _ "utg" 8 hexp, cellShown_nat _ "utg" 8 hexp]
  exact mul_lt_mul_of_pos_right hpow (by norm_num)

theorem pocket_aces_top_cell_witness :
    (∀ k : Nat, ((fun _ : Nat => Env.rotated) k).Valid) ∧
    ∃ top : Cell, cellAt (printGrid (fun _ : Nat => Env.rotated) "utg" false) 0 0 = some top ∧
      top.hand.1.String = ['A', 'c'] ∧ top.hand.2.String = ['A', 's'] ∧
      top.prob = computeWinProbality Env.rotated top.hand.1 top.hand.2 false ∧
      top.exp = 8 ∧ top.shown = top.prob ^ 8 * 100 ∧
      ∀ i j : Fin 13, (i, j) ≠ (0, 0) →
        ∃ c : Cell,
          cellAt (printGrid (fun _ : Nat => Env.rotated) "utg" false) i.val j.val = some c ∧
          c.shown = c.prob ^ 8 * 100 ∧ c.prob ^ 8 < top.prob ^ 8 ∧ c.shown < top.shown :=
  ⟨fun _ => Env.rotated_valid,
    pocket_aces_top_cell (fun _ : Nat => Env.rotated) (fun _ => Env.rotated_valid)⟩

/-- C14: the cell of row `i` and column `j` of the rank sequence evaluates two
distinct cards with the ranks `ranks[j]` and `ranks[i]`: a pocket pair in two
suits when `i = j`, a suited hand when `j > i`, an offsuit hand when `j < i`.
The 169 cells cover 13 pairs, 78 suited and 78 offsuit rank combinations, no
combination twice. -/
theorem grid_layout (envs : Nat → Env) (position : String) (includeTies : Bool)
    (i j : Fin 13) :
    (∃ cell : Cell, cellAt (printGrid envs position includeTies) i.val j.val = some cell ∧
      cell.hand.1 ≠ cell.hand.2 ∧
      cell.hand.1.String.getD 0 '2' = ranks.getD j.val 'A' ∧
      cell.hand.2.String.getD 0 '2' = ranks.getD i.val 'A' ∧
      (i = j → cell.hand.1.Rank = cell.hand.2.Rank ∧ cell.hand.1.Suit ≠ cell.hand.2.Suit) ∧
      (i < j → cell.hand.1.Rank ≠ cell.hand.2.Rank ∧ cell.hand.1.Suit = cell.hand.2.Suit) ∧
      (j < i → cell.hand.1.Rank ≠ cell.hand.2.Rank ∧ cell.hand.1.Suit ≠ cell.hand.2.Suit)) ∧
    (gridClasses (printGrid envs position includeTies)).Nodup ∧
    (gridClasses (printGrid envs position includeTies)).length = 169 ∧
    ((gridClasses (printGrid envs position includeTies)).countP fun k => k.1 == k.2.1) = 13 ∧
    ((gridClasses (printGrid envs position includeTies)).countP
      fun k => k.1 != k.2.1 && k.2.2) = 78 ∧
    ((gridClasses (printGrid envs position includeTies)).countP
      fun k => k.1 != k.2.1 && !k.2.2) = 78 := by
  refine ⟨⟨_, cellAt_printGrid envs position includeTies i j, gridHand_distinct i j, ?_⟩, ?_⟩
  · obtain ⟨h1, h2, h3, h4, h5, _, _⟩ := gridHand_layout i j
    refine ⟨h1, h2, ?_, ?_, ?_⟩
    · intro e
      exact ⟨(rank_eq_iff _ _).2 (h3 e).1, fun hh => (h3 e).2 ((suit_eq_iff _ _).1 hh)⟩
    · intro e
      exact ⟨fun hh => (h4 e).1 ((rank_eq_iff _ _).1 hh), (suit_eq_iff _ _).2 (h4 e).2⟩
    · intro e
      exact ⟨fun hh => (h5 e).1 ((rank_eq_iff _ _).1 hh),
        fun hh => (h5 e).2 ((suit_eq_iff _ _).1 hh)⟩
  · rw [gridClasses_printGrid]
    exact planClasses_facts

/-- C15 fails as stated: in the row of the King the column of the Ace is traversed
before the diagonal, and its cell evaluates Ace of clubs with King of spades, an
offsuit hand; in the row of the Ace the column of the King lies past the
diagonal, and its cell evaluates King of clubs with Ace of clubs, a suited
hand. -/
theorem before_diagonal_is_offsuit :
    (∃ cell : Cell, cellAt (printGrid (fun _ => Env.plain) "sb" false) 1 0 = some cell ∧
      cell.hand.1.String = ['A', 'c'] ∧ cell.hand.2.String = ['K', 's'] ∧
      cell.hand.1.Suit ≠ cell.hand.2.Suit) ∧
    (∃ cell : Cell, cellAt (printGrid (fun _ => Env.plain) "sb" false) 0 1 = some cell ∧
      cell.hand.1.String = ['K', 'c'] ∧ cell.hand.2.String = ['A', 'c'] ∧
      cell.hand.1.Suit = cell.hand.2.Suit) :=
  ⟨⟨_, cellAt_printGrid (fun _ => Env.plain) "sb" false 1 0, rfl, rfl, by decide⟩,
    ⟨_, cellAt_printGrid (fun _ => Env.plain) "sb" false 0 1, rfl, rfl, by decide⟩⟩

/-- C15, amended: within each row the cells whose column is traversed before the
diagonal cell, and the diagonal cell itself, are evaluated with two different
suits (the column rank in clubs, the row rank in spades: offsuit, or a pair on
the diagonal), and the cells past the diagonal are evaluated as suited hands
(both cards in clubs). -/
theorem row_suits (envs : Nat → Env) (position : String) (includeTies : Bool)
    (i j : Fin 13) :
    ∃ cell : Cell, cellAt (printGrid envs position includeTies) i.val j.val = some cell ∧
      cell.hand.1.String.getD 1 's' = 'c' ∧
      (j ≤ i → cell.hand.2.String.getD 1 's' = 's' ∧ cell.hand.1.Suit ≠ cell.hand.2.Suit) ∧
      (i < j → cell.hand.2.String.getD 1 's' = 'c' ∧ cell.hand.1.Suit = cell.hand.2.Suit) := by
  refine ⟨_, cellAt_printGrid envs position includeTies i j, ?_⟩
  obtain ⟨_, _, h3, h4, h5, h6, h7⟩ := gridHand_layout i j
  refine ⟨h6, ?_, ?_⟩
  · intro hle
    refine ⟨h7.trans (if_pos hle), ?_⟩
    rcases lt_or_eq_of_le hle with hlt | heq
    · exact fun hh => (h5 hlt).2 ((suit_eq_iff _ _).1 hh)
    · exact fun hh => (h3 heq.symm).2 ((suit_eq_iff _ _).1 hh)
  · intro hlt
    exact ⟨h7.trans (if_neg (not_le.2 hlt)), (suit_eq_iff _ _).2 (h4 hlt).2⟩

/-- C16: a hand of two distinct deck cards that scores at least as much as every
two-card combination sharing no card with it gets exactly 1 from
`computeWinProbality(c1, c2, true)`; any two distinct Aces are such a hand. -/
theorem top_hand_probability_one (env : Env) (henv : env.Valid) (c1 c2 : Card) (h : c1 ≠ c2)
    (hmax : ∀ x y : Card, x ≠ y → x ≠ c1 → x ≠ c2 → y ≠ c1 → y ≠ c2 →
      comboScore x y ≤ comboScore c1 c2) :
    computeWinProbality env c1 c2 true = 1 ∧
    (∀ a b : Card, a ≠ b → a.String.getD 0 '2' = 'A' → b.String.getD 0 '2' = 'A' →
      computeWinProbality env a b true = 1) := by
  constructor
  · rw [computeWinProbality_eq env henv c1 c2 h, if_pos rfl, betterCount_eq_zero c1 c2 hmax]
    norm_num
  · intro a b hab ha hb
    have ha2 : a.rankIdx = 12 := rankChar_inj a.rankIdx 12 ha
    have hb2 : b.rankIdx = 12 := rankChar_inj b.rankIdx 12 hb
    have h0 : betterCount a b = 0 := by
      apply betterCount_eq_zero
      intro x y _ _ _ _ _
      rw [comboScore_aces a b ha2 hb2]
      exact comboScore_le_twenty x y
    rw [computeWinProbality_eq env henv a b hab, if_pos rfl, h0]
    norm_num

theorem top_hand_probability_one_witness :
    Env.rotated.Valid ∧ (Card.mk 12 3) ≠ (Card.mk 12 0) ∧
    (∀ x y : Card, x ≠ y → x ≠ Card.mk 12 3 → x ≠ Card.mk 12 0 → y ≠ Card.mk 12 3 →
      y ≠ Card.mk 12 0 → comboScore x y ≤ comboScore (Card.mk 12 3) (Card.mk 12 0)) ∧
    computeWinProbality Env.rotated (Card.mk 12 3) (Card.mk 12 0) true = 1 :=
  have hmax : ∀ x y : Card, x ≠ y → x ≠ Card.mk 12 3 → x ≠ Card.mk 12 0 → y ≠ Card.mk 12 3 →
      y ≠ Card.mk 12 0 → comboScore x y ≤ comboScore (Card.mk 12 3) (Card.mk 12 0) := by
    intro x y _ _ _ _ _
    rw [comboScore_aces (Card.mk 12 3) (Card.mk 12 0) rfl rfl]
    exact comboScore_le_twenty x y
  ⟨Env.rotated_valid, by decide, hmax,
    (top_hand_probability_one Env.rotated Env.rotated_valid _ _ (by decide) hmax).1⟩

/-- C17: for each recognized position label the number formatted for a cell is
`prob ^ k * 100`, where `prob` is `computeWinProbality` of the cell's hand and `k`
the label's exponent (sb 1, d 2, co 3, hj 4, lj 5, utg2 6, utg1 7, utg 8); for
"sb" that is `prob * 100`, the unprojected probability. -/
theorem position_projection (envs : Nat → Env) (includeTies : Bool) (i j : Fin 13) :
    (∀ lk ∈ ([("sb", 1), ("d", 2), ("co", 3), ("hj", 4), ("lj", 5), ("utg2", 6),
        ("utg1", 7), ("utg", 8)] : List (String × Nat)),
      posMap lk.1 = (lk.2 : Int) ∧
      ∃ cell : Cell, cellAt (printGrid envs lk.1 includeTies) i.val j.val = some cell ∧
        cell.prob = computeWinProbality (envs (13 * i.val + j.val)) cell.hand.1 cell.hand.2
          includeTies ∧
        cell.exp = (lk.2 : Int) ∧
        cell.shown = cell.prob ^ lk.2 * 100) ∧
    ∃ cell : Cell, cellAt (printGrid envs "sb" includeTies) i.val j.val = some cell ∧
      cell.exp = 1 ∧ cell.shown = cell.prob * 100 := by
  constructor
  · intro lk hlk
    have hexp : posMap lk.1 = (lk.2 : Int) ∧ cellExp lk.1 = (lk.2 : Int) := by
      simp only [List.mem_cons, List.mem_singleton, List.mem_nil_iff, or_false] at hlk
      rcases hlk with h | h | h | h | h | h | h | h <;> subst h <;> decide
    refine ⟨hexp.1, _, cellAt_printGrid envs lk.1 includeTies i j, rfl, hexp.2, ?_⟩
    exact cellShown_nat _ _ _ hexp.2
  · have h1 : cellExp "sb" = 1 := by decide
    refine ⟨_, cellAt_printGrid envs "sb" includeTies i j, h1, ?_⟩
    have h := cellShown_nat (computeWinProbality (envs (13 * i.val + j.val)) (gridHand i j).1
      (gridHand i j).2 includeTies) "sb" 1 (by decide)
    rw [pow_one] at h
    exact h

/-- C18: for every deck order and every two distinct deck cards the lookup of lines
109-112 returns the score of the hand: if the key `c1 + c2` is stored its value
is read (and, should it be 0, the fallback reads a missing key, again 0);
otherwise the first read yields 0 and the fallback reads the score under
`c2 + c1`.  Hands of score 0 exist, Ten-Two offsuit for one. -/
theorem lookup_returns_score (env : Env) (hd : ∀ k, (env.newDeck k).Perm fullDeck)
    (c1 c2 : Card) (h : c1 ≠ c2) :
    handScore (buildCombos env) c1 c2 = comboScore c1 c2 ∧
    ((buildCombos env).has (c1.String ++ c2.String) = true →
      (buildCombos env).get (c1.String ++ c2.String) = comboScore c1 c2 ∧
      (buildCombos env).get (c2.String ++ c1.String) = 0) ∧
    ((buildCombos env).has (c1.String ++ c2.String) = false →
      (buildCombos env).get (c1.String ++ c2.String) = 0 ∧
      (buildCombos env).get (c2.String ++ c1.String) = comboScore c1 c2) ∧
    comboScore (Card.mk 8 3) (Card.mk 0 0) = 0 ∧
    (Card.mk 8 3).String = ['T', 'c'] ∧ (Card.mk 0 0).String = ['2', 's'] := by
  have hg := buildPairs_ok env hd
  have hc := buildPairs_covers env hd c1 c2 h
  have hz : comboScore (Card.mk 8 3) (Card.mk 0 0) = 0 := by
    rw [scoreInt_eval _ _ 0 (by decide)]
    norm_num
  rw [buildCombos_eq]
  refine ⟨handScore_eq _ hg c1 c2 hc, ?_, ?_, hz, rfl, rfl⟩
  · intro hh
    have h12 := (has_map_entryOf _ c1 c2).1 hh
    have h21 : (c2, c1) ∉ buildPairs env := fun h21 => not_both _ hg c1 c2 ⟨h12, h21⟩
    rw [get_map_entryOf, get_map_entryOf, if_pos h12, if_neg h21]
    exact ⟨rfl, rfl⟩
  · intro hh
    have h12 : (c1, c2) ∉ buildPairs env := by
      intro h12
      rw [(has_map_entryOf _ c1 c2).2 h12] at hh
      exact Bool.noConfusion hh
    have h21 : (c2, c1) ∈ buildPairs env := by
      rcases hc with hc | hc
      · exact absurd hc h12
      · exact hc
    rw [get_map_entryOf, get_map_entryOf, if_neg h12, if_pos h21]
    exact ⟨rfl, comboScore_comm c2 c1⟩

theorem lookup_returns_score_witness :
    (∀ k, (Env.rotated.newDeck k).Perm fullDeck) ∧ (Card.mk 8 3) ≠ (Card.mk 0 0) ∧
    handScore (buildCombos Env.rotated) (Card.mk 8 3) (Card.mk 0 0) =
      comboScore (Card.mk 8 3) (Card.mk 0 0) :=
  ⟨Env.rotated_valid.1, by decide,
    (lookup_returns_score Env.rotated Env.rotated_valid.1 _ _ (by decide)).1⟩

/-- C19: for two hands of distinct deck cards and either value of `includeTies`, if
the first hand scores strictly more than the second, `computeWinProbality`
returns for the first hand at least what it returns for the second (whatever the
deck orders and map orders of the two calls). -/
theorem probability_monotone (env1 env2 : Env) (h1 : env1.Valid) (h2 : env2.Valid)
    (a1 a2 b1 b2 : Card) (ha : a1 ≠ a2) (hb : b1 ≠ b2) (includeTies : Bool)
    (h : comboScore a1 a2 > comboScore b1 b2) :
    computeWinProbality env1 a1 a2 includeTies ≥ computeWinProbality env2 b1 b2 includeTies := by
  obtain ⟨hc1, hc2⟩ := counts_antitone a1 a2 b1 b2 ha hb h
  have q1 : (betterCount a1 a2 : ℚ) ≤ betterCount b1 b2 := by exact_mod_cast hc1
  have q2 : (betterCount a1 a2 : ℚ) + tiedCount a1 a2 ≤
      (betterCount b1 b2 : ℚ) + tiedCount b1 b2 := by exact_mod_cast hc2
  rw [computeWinProbality_eq env1 h1 a1 a2 ha, computeWinProbality_eq env2 h2 b1 b2 hb]
  cases includeTies
  · simp only [Bool.false_eq_true, if_false]
    have := div_le_div_of_nonneg_right q2 (by norm_num : (0 : ℚ) ≤ 1225)
    linarith
  · simp only [if_true]
    have := div_le_div_of_nonneg_right q1 (by norm_num : (0 : ℚ) ≤ 1225)
    linarith

theorem probability_monotone_witness :
    Env.plain.Valid ∧ Env.rotated.Valid ∧ Card.mk 11 3 ≠ Card.mk 10 3 ∧
    Card.mk 5 3 ≠ Card.mk 0 0 ∧
    comboScore (Card.mk 11 3) (Card.mk 10 3) > comboScore (Card.mk 5 3) (Card.mk 0 0) ∧
    computeWinProbality Env.plain (Card.mk 11 3) (Card.mk 10 3) false ≥
      computeWinProbality Env.rotated (Card.mk 5 3) (Card.mk 0 0) false :=
  have hs : comboScore (Card.mk 11 3) (Card.mk 10 3) > comboScore (Card.mk 5 3) (Card.mk 0 0) := by
    rw [scoreInt_eval (Card.mk 11 3) (Card.mk 10 3) 10 (by decide),
      scoreInt_eval (Card.mk 5 3) (Card.mk 0 0) (-2) (by decide)]
    norm_num
  ⟨Env.plain_valid, Env.rotated_valid, by decide, by decide, hs,
    probability_monotone Env.plain Env.rotated Env.plain_valid Env.rotated_valid _ _ _ _
      (by decide) (by decide) false hs⟩

/-- C20, as stated, fails on the model: for the pair of sixes 6♠ 6♥ with ties
included, rounding halves to even gives a different (greater) probability than
`math.Round`.  Both roundings score the pair 6; the suited Seven-Six 7♣ 6♣ has
the unrounded score 6.5, which `math.Round` stores as 7 (a better hand) and
rounding to even stores as 6 (a tie). -/
theorem rounding_rule_is_load_bearing :
    comboScore (Card.mk 4 0) (Card.mk 4 1) = 6 ∧
    comboScoreEven (Card.mk 4 0) (Card.mk 4 1) = 6 ∧
    rawScore (Card.mk 5 3) (Card.mk 4 3) = 13 / 2 ∧
    comboScore (Card.mk 5 3) (Card.mk 4 3) = 7 ∧
    comboScoreEven (Card.mk 5 3) (Card.mk 4 3) = 6 ∧
    computeWinProbalityWith comboScoreEven Env.plain (Card.mk 4 0) (Card.mk 4 1) true ≠
      computeWinProbality Env.plain (Card.mk 4 0) (Card.mk 4 1) true :=
  have h1 : comboScore (Card.mk 4 0) (Card.mk 4 1) = 6 := by
    rw [scoreInt_eval (Card.mk 4 0) (Card.mk 4 1) 6 (by decide)]
    norm_num
  have h2 : comboScoreEven (Card.mk 4 0) (Card.mk 4 1) = 6 := by
    rw [comboScoreEven_eq]
    have e : scoreIntEven (Card.mk 4 0).rankIdx (Card.mk 4 1).rankIdx
        (decide ((Card.mk 4 0).suitIdx = (Card.mk 4 1).suitIdx)) = 6 := by decide
    rw [e]
    norm_num
  have h3 : rawScore (Card.mk 5 3) (Card.mk 4 3) = 13 / 2 := by
    rw [rawScore_eq]
    have e : raw2 (Card.mk 5 3).rankIdx (Card.mk 4 3).rankIdx
        (decide ((Card.mk 5 3).suitIdx = (Card.mk 4 3).suitIdx)) = 13 := by decide
    rw [e]
    norm_num
  have h4 : comboScore (Card.mk 5 3) (Card.mk 4 3) = 7 := by
    rw [scoreInt_eval (Card.mk 5 3) (Card.mk 4 3) 7 (by decide)]
    norm_num
  have h5 : comboScoreEven (Card.mk 5 3) (Card.mk 4 3) = 6 := by
    rw [comboScoreEven_eq]
    have e : scoreIntEven (Card.mk 5 3).rankIdx (Card.mk 4 3).rankIdx
        (decide ((Card.mk 5 3).suitIdx = (Card.mk 4 3).suitIdx)) = 6 := by decide
    rw [e]
    norm_num
  ⟨h1, h2, h3, h4, h5,
    ne_of_gt (even_raises_probability Env.plain Env.plain_valid (Card.mk 4 0) (Card.mk 4 1)
      (Card.mk 5 3) (Card.mk 4 3) (by decide) (by decide) (by decide) (by decide) h1 h2
      (by rw [h4]; norm_num) (by rw [h5]; norm_num))⟩

/-- C20, amended: for every hand of two distinct deck cards that scores at least 8,
replacing `math.Round` by rounding halves to even leaves the numbers of better
and of tied hands, and so the value of `computeWinProbality` for both values of
`includeTies`, unchanged. -/
theorem rounding_rule_high_scores (env : Env) (henv : env.Valid) (c1 c2 : Card) (h : c1 ≠ c2)
    (hs : 8 ≤ comboScore c1 c2) (includeTies : Bool) :
    comboScoreEven c1 c2 = comboScore c1 c2 ∧
    betterCountWith comboScoreEven c1 c2 = betterCount c1 c2 ∧
    tiedCountWith comboScoreEven c1 c2 = tiedCount c1 c2 ∧
    computeWinProbalityWith comboScoreEven env c1 c2 includeTies =
      computeWinProbality env c1 c2 includeTies := by
  obtain ⟨hb, ht⟩ := even_counts_high c1 c2 hs
  refine ⟨comboScoreEven_high c1 c2 (Or.inl hs), hb, ht, ?_⟩
  rw [computeWinProbality_eq env henv c1 c2 h,
    computeWinProbalityWith_eq comboScoreEven comboScoreEven_comm env henv c1 c2 h, hb, ht]

theorem rounding_rule_high_scores_witness :
    Env.rotated.Valid ∧ Card.mk 12 3 ≠ Card.mk 11 3 ∧
    8 ≤ comboScore (Card.mk 12 3) (Card.mk 11 3) ∧
    computeWinProbalityWith comboScoreEven Env.rotated (Card.mk 12 3) (Card.mk 11 3) false =
      computeWinProbality Env.rotated (Card.mk 12 3) (Card.mk 11 3) false :=
  have hs : 8 ≤ comboScore (Card.mk 12 3) (Card.mk 11 3) := by
    rw [scoreInt_eval (Card.mk 12 3) (Card.mk 11 3) 12 (by decide)]
    norm_num
  ⟨Env.rotated_valid, by decide, hs,
    (rounding_rule_high_scores Env.rotated Env.rotated_valid _ _ (by decide) hs false).2.2.2⟩

end PokerRange
